import Mathlib

/-!
Verification of the SlideNarrator core: script parsing (core/script_parser.py),
the concurrent narration pipeline (core/audio_processor.py), the synthesis
adapter boundary (core/tts_engine.py) and subtitle derivation
(core/subtitle_generator.py), shallowly embedded in Lean.

Numbers: Python floats are modelled as exact rationals; machine audio sample
values are modelled as rationals as well (only sample counts matter to the
properties below).  File I/O is not modelled: `process_all_pages` is embedded
with `output_dir=None`, in which case the source computes the per-page
duration from the in-memory buffer (`calculate_duration`) and leaves
`audio_path` untouched.
-/

namespace SlideNarrator

/-- Characters treated as whitespace by Python `str.strip` and `\s`
(restricted to the whitespace characters that can occur in this code path;
includes the ideographic space). -/
def pyWS (c : Char) : Bool :=
  c == ' ' || c == '\t' || c == '\n' || c == '\r' || c == '\x0b' || c == '\x0c' || c == '　'

/-- Python `str.strip()` on a list of characters. -/
def pyStrip (cs : List Char) : List Char :=
  ((cs.dropWhile pyWS).reverse.dropWhile pyWS).reverse

/-- Python `int()` applied to a float: truncation toward zero. -/
def pyInt (q : ℚ) : ℤ :=
  if 0 ≤ q then ⌊q⌋ else ⌈q⌉

/-- Python `%` on floats (sign of the divisor; our uses have positive divisor). -/
def pyMod (a b : ℚ) : ℚ := a - b * ⌊a / b⌋

/-- Python `round()` with no digits: round half to even, returning an int. -/
def pyRound (q : ℚ) : ℤ :=
  let f := ⌊q⌋
  let r := q - f
  if r < 1/2 then f
  else if (1/2 : ℚ) < r then f + 1
  else if f % 2 = 0 then f else f + 1

/-- Split a character list at every separator character satisfying `p`,
keeping empty chunks, exactly like Python `re.split` on a character class or
`str.split(sep)` with an explicit separator. -/
def splitOnPred (p : Char → Bool) : List Char → List (List Char)
  | [] => [[]]
  | c :: cs =>
    if p c then [] :: splitOnPred p cs
    else
      match splitOnPred p cs with
      | [] => [[c]]
      | g :: gs => (c :: g) :: gs

/-! ## Data model (core/script_parser.py, dataclasses Sentence / Page / Script) -/

/-- Dataclass `Sentence` of core/script_parser.py. -/
structure Sentence where
  text : String
  page_index : ℕ
  sentence_index : ℕ
  audio_path : Option String := none
  duration_sec : ℚ := 0
  start_sec : ℚ := 0
deriving DecidableEq, Repr

/-- Dataclass `Page` of core/script_parser.py. -/
structure Page where
  page_number : ℕ
  page_index : ℕ
  sentences : List Sentence := []
deriving DecidableEq, Repr

/-- Dataclass `Script` of core/script_parser.py. -/
structure Script where
  pages : List Page := []
deriving DecidableEq, Repr

/-- Property `Page.total_duration`. -/
def Page.total_duration (p : Page) : ℚ :=
  (p.sentences.map (·.duration_sec)).sum

/-- Property `Script.total_sentences`. -/
def Script.total_sentences (s : Script) : ℕ :=
  (s.pages.map (·.sentences.length)).sum

/-- Property `Script.total_duration`. -/
def Script.total_duration (s : Script) : ℚ :=
  (s.pages.map Page.total_duration).sum

/-! ## Chinese numeral conversion (`_CN_DIGITS`, `_chinese_num_to_int`) -/

/-- Lookup table `_CN_DIGITS` as a partial map on characters. -/
def CN_DIGITS (c : Char) : Option ℕ :=
  if c == '一' || c == '壹' then some 1
  else if c == '二' || c == '貳' then some 2
  else if c == '三' || c == '參' then some 3
  else if c == '四' || c == '肆' then some 4
  else if c == '五' || c == '伍' then some 5
  else if c == '六' || c == '陸' then some 6
  else if c == '七' || c == '柒' then some 7
  else if c == '八' || c == '捌' then some 8
  else if c == '九' || c == '玖' then some 9
  else if c == '十' || c == '拾' then some 10
  else none

/-- Python `s in _CN_DIGITS` for a string `s` (the keys are single chars). -/
def tableHas (s : List Char) : Bool :=
  match s with
  | [c] => (CN_DIGITS c).isSome
  | _ => false

/-- Python `_CN_DIGITS.get(s, 0)` for a string `s`. -/
def tableGet (s : List Char) : ℕ :=
  match s with
  | [c] => (CN_DIGITS c).getD 0
  | _ => 0

/-- Function `_chinese_num_to_int` of core/script_parser.py. -/
def chinese_num_to_int (s : List Char) : Option ℕ :=
  let cn := pyStrip s
  if cn.isEmpty then none
  else if tableHas cn then some (tableGet cn)
  else if cn.length = 2 && (cn.headD ' ' == '十') && tableHas [cn.getD 1 ' '] then
    some (10 + tableGet [cn.getD 1 ' '])
  else if cn.contains '十' then
    let parts := splitOnPred (· == '十') cn
    let p0 := parts.headD []
    let tens := if p0.isEmpty then 1 else tableGet p0
    let p1 := parts.getD 1 []
    let ones := if parts.length > 1 && !p1.isEmpty then tableGet p1 else 0
    some (tens * 10 + ones)
  else none

/-! ## Page-header matching (`_PAGE_EN`, `_PAGE_CN_ARABIC`, `_PAGE_CN_CHAR`,
`_match_page_header`).  The three regexes are embedded as deterministic
left-to-right scanners; each regex is deterministic because every starred
class is disjoint from the construct that follows it, so the greedy match
never needs to backtrack.  Python `\d` is modelled as the ASCII digits (the
only digits exercised by this repository's inputs). -/

/-- Numeric value of an ASCII digit string, as Python `int()` on the match. -/
def digitsToNat (ds : List Char) : ℕ :=
  ds.foldl (fun n c => n * 10 + (c.toNat - '0'.toNat)) 0

/-- Regex `_PAGE_EN`: case-insensitive `^Page\s*(\d+)\s*[:：]\s*(.*)`; returns
the page number and the stripped trailing content, as `_match_page_header`
returns `int(m.group(1)), m.group(2).strip()`. -/
def match_page_en (cs : List Char) : Option (ℕ × List Char) :=
  match cs with
  | p :: a :: g :: e :: rest =>
    if p.toLower == 'p' && a.toLower == 'a' && g.toLower == 'g' && e.toLower == 'e' then
      let r1 := rest.dropWhile pyWS
      let ds := r1.takeWhile Char.isDigit
      if ds.isEmpty then none
      else
        let r2 := (r1.dropWhile Char.isDigit).dropWhile pyWS
        match r2 with
        | c :: r3 => if c == ':' || c == '：' then some (digitsToNat ds, pyStrip r3) else none
        | [] => none
    else none
  | _ => none

/-- Opening decoration class `[【\-─]` of the Chinese header regexes. -/
def openDeco (c : Char) : Bool := c == '【' || c == '-' || c == '─'

/-- Closing decoration class `[】\-─]` of the Chinese header regexes. -/
def closeDeco (c : Char) : Bool := c == '】' || c == '-' || c == '─'

/-- Shared tail of the two Chinese header regexes after the `頁` character:
`\s*[】\-─]*\s*[:：]?\s*(.*)` followed by `.strip()` of group 2. -/
def cnHeaderTail (r4 : List Char) : List Char :=
  let r5 := ((r4.dropWhile pyWS).dropWhile closeDeco).dropWhile pyWS
  match r5 with
  | c :: r6 => if c == ':' || c == '：' then pyStrip r6 else pyStrip r5
  | [] => []

/-- Regex `_PAGE_CN_ARABIC`: `^[【\-─]*\s*第\s*(\d+)\s*頁\s*[】\-─]*\s*[:：]?\s*(.*)`. -/
def match_page_cn_arabic (cs : List Char) : Option (ℕ × List Char) :=
  let r0 := (cs.dropWhile openDeco).dropWhile pyWS
  match r0 with
  | '第' :: r1 =>
    let r2 := r1.dropWhile pyWS
    let ds := r2.takeWhile Char.isDigit
    if ds.isEmpty then none
    else
      let r3 := (r2.dropWhile Char.isDigit).dropWhile pyWS
      match r3 with
      | '頁' :: r4 => some (digitsToNat ds, cnHeaderTail r4)
      | _ => none
  | _ => none

/-- Membership in the CJK numeral class of `_PAGE_CN_CHAR`; it consists of
exactly the keys of `_CN_DIGITS`. -/
def cnNumChar (c : Char) : Bool := (CN_DIGITS c).isSome

/-- Regex `_PAGE_CN_CHAR` plus the `_chinese_num_to_int` conversion; a
numeral group that does not convert makes the whole header match fail, as in
`_match_page_header`. -/
def match_page_cn_char (cs : List Char) : Option (ℕ × List Char) :=
  let r0 := (cs.dropWhile openDeco).dropWhile pyWS
  match r0 with
  | '第' :: r1 =>
    let r2 := r1.dropWhile pyWS
    let ds := r2.takeWhile cnNumChar
    if ds.isEmpty then none
    else
      let r3 := (r2.dropWhile cnNumChar).dropWhile pyWS
      match r3 with
      | '頁' :: r4 =>
        match chinese_num_to_int ds with
        | some n => some (n, cnHeaderTail r4)
        | none => none
      | _ => none
  | _ => none

/-- Function `_match_page_header`: try the three patterns in order on the
stripped line. -/
def match_page_header (line : List Char) : Option (ℕ × List Char) :=
  let stripped := pyStrip line
  match match_page_en stripped with
  | some r => some r
  | none =>
    match match_page_cn_arabic stripped with
    | some r => some r
    | none => match_page_cn_char stripped

/-! ## Sentence splitting (`_SENTENCE_TERMINATORS`, `_MIN_SENTENCE_LEN`,
`_split_into_sentences`, `_merge_short_sentences`) -/

/-- Character class `_SENTENCE_TERMINATORS` = `[。！？；\n]`. -/
def isTerminator (c : Char) : Bool :=
  c == '。' || c == '！' || c == '？' || c == '；' || c == '\n'

/-- Constant `_MIN_SENTENCE_LEN`. -/
def MIN_SENTENCE_LEN : ℕ := 4

/-- Tail-recursive worker for `_merge_short_sentences`, carrying the merged
list reversed; Python appends a short fragment onto the previous entry. -/
def merge_short_aux : List (List Char) → List (List Char) → List (List Char)
  | acc, [] => acc.reverse
  | [], s :: rest => merge_short_aux [s] rest
  | a :: as, s :: rest =>
    if s.length < MIN_SENTENCE_LEN then merge_short_aux ((a ++ s) :: as) rest
    else merge_short_aux (s :: a :: as) rest

/-- Function `_merge_short_sentences`. -/
def merge_short_sentences (l : List (List Char)) : List (List Char) :=
  merge_short_aux [] l

/-- Function `_split_into_sentences`: the four splitting strategies in their
decision order. -/
def split_into_sentences (t0 : List Char) : List (List Char) :=
  let t := pyStrip t0
  if t.isEmpty then []
  else if t.contains '\n' then
    ((splitOnPred (· == '\n') t).map pyStrip).filter (fun l => !l.isEmpty)
  else if t.any isTerminator then
    merge_short_sentences
      (((splitOnPred isTerminator t).map pyStrip).filter (fun l => !l.isEmpty))
  else
    let space_parts := ((splitOnPred (· == ' ') t).map pyStrip).filter (fun l => !l.isEmpty)
    -- Source: `avg_len = sum(len(p) for p in space_parts) / len(space_parts)` and
    -- `avg_len >= _MIN_SENTENCE_LEN`.  The average comparison is written here
    -- denominator-cleared over the naturals; `avg_condition_iff` below proves it
    -- equal to the rational average comparison when the list is non-empty.
    if 1 < space_parts.length ∧
        MIN_SENTENCE_LEN * space_parts.length ≤ (space_parts.map (·.length)).sum then
      merge_short_sentences space_parts
    else [t]

/-- The denominator-cleared average-length condition used in
`split_into_sentences` agrees with the rational average comparison of the
source whenever the fragment list is non-empty. -/
theorem avg_condition_iff (lens : List ℕ) (h : 0 < lens.length) :
    MIN_SENTENCE_LEN * lens.length ≤ lens.sum ↔
      (MIN_SENTENCE_LEN : ℚ) ≤ (lens.sum : ℚ) / lens.length := by
  have hl : (0 : ℚ) < (lens.length : ℚ) := by exact_mod_cast h
  rw [le_div_iff₀ hl]
  constructor
  · intro hle
    exact_mod_cast hle
  · intro hle
    exact_mod_cast hle

/-! ## Main parse function (`parse_script`) -/

/-- Sentences appended by the inner loops of `parse_script`: each appended
sentence records the owning page index and is numbered by the length of the
page's sentence list at append time, hence consecutively from `startIdx`. -/
def mkSentences (pageIdx startIdx : ℕ) (texts : List (List Char)) : List Sentence :=
  (texts.enumFrom startIdx).map fun it =>
    { text := it.2.asString, page_index := pageIdx, sentence_index := it.1 }

/-- Parser state: pages completed so far (in reverse), the page currently
receiving sentences (`current_page`, always the most recently created page),
and the running `page_index`.  In the source the current page already sits
inside `script.pages` and is mutated in place; keeping it separate and
appending it at the end is observationally identical. -/
structure ParseState where
  finished : List Page
  current : Option Page
  pageIndex : ℕ
deriving DecidableEq, Repr

/-- One iteration of the line loop of `parse_script`. -/
def parse_line (st : ParseState) (line : List Char) : ParseState :=
  let stripped := pyStrip line
  if stripped.isEmpty then st
  else
    match match_page_header stripped with
    | some (num, remaining) =>
      let finished' := match st.current with | none => st.finished | some p => p :: st.finished
      let sents :=
        if remaining.isEmpty then []
        else mkSentences st.pageIndex 0 (split_into_sentences remaining)
      { finished := finished'
        current := some { page_number := num, page_index := st.pageIndex, sentences := sents }
        pageIndex := st.pageIndex + 1 }
    | none =>
      match st.current with
      | none =>
        { finished := st.finished
          current := some { page_number := 1, page_index := 0
                            sentences := mkSentences 0 0 (split_into_sentences stripped) }
          pageIndex := 1 }
      | some p =>
        { st with
          current := some { p with
            sentences :=
              p.sentences ++
                mkSentences p.page_index p.sentences.length (split_into_sentences stripped) } }

/-- Removal of a leading byte-order mark, as in `parse_script`. -/
def stripBOM (cs : List Char) : List Char :=
  match cs with
  | c :: rest => if c.toNat == 0xFEFF then rest else cs
  | _ => cs

/-- The pages a parser state denotes: completed pages plus the current one. -/
def ParseState.pagesOut (st : ParseState) : List Page :=
  (match st.current with | none => st.finished | some p => p :: st.finished).reverse

/-- Function `parse_script` of core/script_parser.py.  Python `splitlines` is
modelled as splitting on the newline character (the only line separator
produced by this repository's inputs); trailing empty chunks are skipped by
the blank-line test exactly as in the source. -/
def parse_script (text : String) : Script :=
  let cs := stripBOM text.toList
  let lines := splitOnPred (· == '\n') cs
  let st := lines.foldl parse_line ⟨[], none, 0⟩
  ⟨st.pagesOut⟩

/-! ## Audio helpers (core/audio_processor.py).  An audio buffer is its list
of float samples, modelled as rationals; only lengths enter the timeline
arithmetic. -/

/-- Audio sample buffer. -/
abbrev Audio := List ℚ

/-- Function `generate_silence`: `np.zeros(int(duration_sec * sample_rate))`. -/
def generate_silence (duration_sec : ℚ) (sample_rate : ℕ) : Audio :=
  List.replicate (pyInt (duration_sec * sample_rate)).toNat 0

/-- Function `calculate_duration`: `len(samples) / sample_rate`. -/
def calculate_duration (samples : Audio) (sample_rate : ℕ) : ℚ :=
  (samples.length : ℚ) / sample_rate

/-- Function `concatenate_audio`: interleave one silence block between
adjacent segments, never before the first or after the last. -/
def concatenate_audio (audio_segments : List Audio) (pause_between_sec : ℚ)
    (sample_rate : ℕ) : Audio :=
  match audio_segments with
  | [] => []
  | _ =>
    let silence := generate_silence pause_between_sec sample_rate
    (audio_segments.intersperse silence).flatten

/-- Constant `SENTENCE_PAUSE_SEC` of config.py. -/
def SENTENCE_PAUSE_SEC : ℚ := 1/2

/-! ## Synthesis adapter (core/tts_engine.py, method `synthesize`).

The neural generator itself is the external collaborator; it is a parameter
`gen` returning raw samples and a sample rate for the processed text.  The
optional text-mapping conversion step is the parameter `convert`
(`enable_conversion=False` corresponds to `convert = id`).  A raised Python
exception is `none`. -/

/-- Outcome of one `_synthesize_one` task: `some (samples, sample_rate)` on
success, `none` when the adapter raised. -/
abbrev SynthOutcome := Option (Audio × ℕ)

/-- The text preprocessing of `synthesize`: strip, convert, then truncate to
500 characters. -/
def engine_processed (convert : List Char → List Char) (text : List Char) : List Char :=
  let processed := convert (pyStrip text)
  if 500 < processed.length then processed.take 500 else processed

/-- The peak normalization of `synthesize`: divide by the maximum absolute
sample and scale by 0.9 when the peak is positive. -/
def normalize_samples (samples : Audio) : Audio :=
  let maxVal := (samples.map (fun x => |x|)).foldr max 0
  if 0 < maxVal then samples.map (fun x => x / maxVal * (9/10)) else samples

/-- Method `synthesize` of `SherpaTTS` (core/tts_engine.py): raises on empty
or whitespace-only input text, raises when the generated sample array is
empty, otherwise normalizes and returns the samples with the generator's
reported sample rate.  The 1-D case of the channel-mean step is modelled
(this repository's generator returns mono audio). -/
def synthesize (convert : List Char → List Char) (gen : List Char → Audio × ℕ)
    (text : List Char) : SynthOutcome :=
  if (pyStrip text).isEmpty then none
  else
    let processed := engine_processed convert text
    let res := gen processed
    if res.1.isEmpty then none
    else some (normalize_samples res.1, res.2)

/-! ## Concurrent narration pipeline (core/audio_processor.py,
`process_all_pages`).

Phase 1 is parameterized by the per-text synthesis outcome
`synth : String -> SynthOutcome` (the behaviour of `_synthesize_one`, whose
try/except wrapper is exactly the `Option`).  `TTS_PARALLEL_WORKERS` is
imported from config but modelled as the parameter `workers`.
Modelled from the spec: `TTS_PARALLEL_WORKERS` is missing from config.py
(only its import site exists); the spec states the pool size is
configurable, so it is a parameter here.  The completion order of
`as_completed` is the parameter `order`; every future is written to its
reserved index `future_to_idx[future]`. -/

/-- Phase 1 flattening: `all_sentences = [(page.page_number, sentence) ...]`. -/
def flattenPS (script : Script) : List (ℕ × Sentence) :=
  (script.pages.map (fun page => page.sentences.map (fun s => (page.page_number, s)))).flatten

/-- The synthesis outcome of the task with canonical index `i`. -/
def synthAt (script : Script) (synth : String → SynthOutcome) (i : ℕ) : SynthOutcome :=
  match (flattenPS script).get? i with
  | some ps => synth ps.2.text
  | none => none

/-- Phase 1, single-worker branch: synthesize sequentially in canonical
order, storing each result at its index. -/
def phase1_seq (script : Script) (synth : String → SynthOutcome) : List SynthOutcome :=
  (flattenPS script).map (fun ps => synth ps.2.text)

/-- Phase 1, parallel branch: the results array is pre-sized and filled with
placeholders; each completed future is written at its reserved canonical
index, in completion order `order`. -/
def phase1_par (script : Script) (synth : String → SynthOutcome)
    (order : List ℕ) : List SynthOutcome :=
  order.foldl (fun acc i => acc.set i (synthAt script synth i))
    (List.replicate (flattenPS script).length none)

/-- Phase 3 preamble: the reference sample rate is taken from the first
successful synthesis result (`actual_sr`). -/
def first_actual_sr (results : List SynthOutcome) : Option ℕ :=
  ((results.filterMap id).head?).map (·.2)

/-- The quantized inter-sentence pause: `int(pause_sec * sr) / sr` seconds. -/
def pause_quantum (pause_sec : ℚ) (sr : ℕ) : ℚ :=
  ((pyInt (pause_sec * sr) : ℤ) : ℚ) / sr

/-- Duration assigned to a sentence from its synthesis outcome:
`len(samples) / sr` on success, the 1.0-second substitution on failure. -/
def durOf (r : SynthOutcome) : ℚ :=
  match r with
  | some (samples, sr) => (samples.length : ℚ) / sr
  | none => 1

/-- Segment appended to the page buffer from a synthesis outcome: the
samples on success, one second of silence at the reference rate on failure. -/
def segOf (refSr : ℕ) (r : SynthOutcome) : Audio :=
  match r with
  | some (samples, _) => samples
  | none => generate_silence 1 refSr

/-- The per-page sentence loop of the sequential timeline pass: thread the
global cursor, advance it by the quantized pause before every sentence except
the first of the page (`if i > 0`), record `start_sec` and `duration_sec` on
the sentence, and collect the page segment buffer. -/
def timeline_page (pause_sec : ℚ) (refSr : ℕ) :
    ℚ → ℕ → List (Sentence × SynthOutcome) → ℚ × List Sentence × List Audio
  | cursor, _, [] => (cursor, [], [])
  | cursor, i, (s, r) :: rest =>
    let cursor1 := if 0 < i then cursor + pause_quantum pause_sec refSr else cursor
    let s' := { s with start_sec := cursor1, duration_sec := durOf r }
    let out := timeline_page pause_sec refSr (cursor1 + durOf r) (i + 1) rest
    (out.1, s' :: out.2.1, segOf refSr r :: out.2.2)

/-- The page loop of the sequential timeline pass: run the sentence loop on
each page against that page's slice of the results array, then merge the page
segment buffer with the quantized pauses inserted (or emit an empty buffer
with duration 0 for a sentence-less page). -/
def timeline_pages (pause_sec : ℚ) (refSr : ℕ) :
    ℚ → List Page → List SynthOutcome → ℚ × List Page × List (Audio × ℚ)
  | cursor, [], _ => (cursor, [], [])
  | cursor, p :: rest, results =>
    let k := p.sentences.length
    let out := timeline_page pause_sec refSr cursor 0 (p.sentences.zip (results.take k))
    let pageRes :=
      if out.2.2.isEmpty then (([] : Audio), (0 : ℚ))
      else
        let combined := concatenate_audio out.2.2 pause_sec refSr
        (combined, calculate_duration combined refSr)
    let outR := timeline_pages pause_sec refSr out.1 rest (results.drop k)
    (outR.1, { p with sentences := out.2.1 } :: outR.2.1, pageRes :: outR.2.2)

/-- Phases 2-3 of `process_all_pages` given the settled results array: fix
the reference rate, walk the canonical sequence once, and return the updated
script together with the per-page `(audio, duration)` list. -/
def run_phase2 (script : Script) (results : List SynthOutcome) (pause_sec : ℚ)
    (engine_sr : ℕ) : Script × List (Audio × ℚ) :=
  let refSr := (first_actual_sr results).getD engine_sr
  let out := timeline_pages pause_sec refSr 0 script.pages results
  (⟨out.2.1⟩, out.2.2)

/-- Function `process_all_pages`: choose the sequential branch when the
worker pool size is at most 1, the parallel branch otherwise, then run the
sequential timeline pass on the settled results. -/
def process_all_pages (script : Script) (synth : String → SynthOutcome)
    (pause_sec : ℚ) (engine_sr : ℕ) (workers : ℕ) (order : List ℕ) :
    Script × List (Audio × ℚ) :=
  let results :=
    if workers ≤ 1 then phase1_seq script synth else phase1_par script synth order
  run_phase2 script results pause_sec engine_sr

/-! ## Subtitle derivation (core/subtitle_generator.py) -/

/-- Two-digit zero padding, Python `f"{n:02d}"` for non-negative `n`. -/
def pad2 (n : ℕ) : String :=
  if n < 10 then "0" ++ toString n else toString n

/-- Three-digit zero padding, Python `f"{n:03d}"` for non-negative `n`. -/
def pad3 (n : ℕ) : String :=
  if n < 10 then "00" ++ toString n
  else if n < 100 then "0" ++ toString n
  else toString n

/-- The millisecond field computed by `format_srt_time` after clamping the
input to be non-negative: `int(round((seconds - int(seconds)) * 1000))`,
then clamped below 1000. -/
def srt_millis (seconds : ℚ) : ℕ :=
  let millis0 := pyRound ((seconds - ⌊seconds⌋) * 1000)
  if 1000 ≤ millis0 then 999 else millis0.toNat

/-- Function `format_srt_time` of core/subtitle_generator.py. -/
def format_srt_time (seconds0 : ℚ) : String :=
  let seconds := if seconds0 < 0 then 0 else seconds0
  let hours := (⌊seconds / 3600⌋).toNat
  let minutes := (⌊pyMod seconds 3600 / 60⌋).toNat
  let secs := (⌊pyMod seconds 60⌋).toNat
  pad2 hours ++ ":" ++ pad2 minutes ++ ":" ++ pad2 secs ++ "," ++ pad3 (srt_millis seconds)

/-- The cue loop of `generate_srt`: skip sentences with non-positive
duration, number emitted cues consecutively from the running index, and set
each cue's end time to `start_sec + duration_sec`. -/
def srt_cues : ℕ → List Sentence → List (ℕ × ℚ × ℚ × String)
  | _, [] => []
  | index, s :: rest =>
    if s.duration_sec ≤ 0 then srt_cues index rest
    else (index, s.start_sec, s.start_sec + s.duration_sec, s.text) :: srt_cues (index + 1) rest

/-- Function `generate_srt`: render the cues of the canonical sentence
sequence as SRT text blocks joined by newlines. -/
def generate_srt (script : Script) : String :=
  let flat := (script.pages.map (·.sentences)).flatten
  let lines := (srt_cues 1 flat).map (fun c =>
    [toString c.1, format_srt_time c.2.1 ++ " --> " ++ format_srt_time c.2.2.1, c.2.2.2, ""])
  String.intercalate "\n" lines.flatten

/-! ## Phase 1: completion order does not affect the settled results array -/

/-- Writing `f i` into slot `i` of an index-addressed array, once for every
index listed in `order`, leaves slot `j` holding `f j` whenever `j` is in
range and occurs in `order`; placement is independent of the completion
order and of repetitions because the written value depends only on the
slot index. -/
theorem foldl_set_get? (f : ℕ → SynthOutcome) :
    ∀ (order : List ℕ) (init : List SynthOutcome) (j : ℕ),
      (order.foldl (fun acc i => acc.set i (f i)) init)[j]? =
        if j < init.length ∧ j ∈ order then some (f j) else init[j]?
  | [], init, j => by simp
  | i :: rest, init, j => by
    rw [List.foldl_cons, foldl_set_get? f rest (init.set i (f i)) j]
    by_cases hjr : j ∈ rest
    · by_cases hjl : j < init.length
      · simp [hjl, hjr]
      · have hset : (init.set i (f i))[j]? = init[j]? := by
          rw [List.getElem?_eq_none (l := init.set i (f i)) (by simpa using Nat.le_of_not_lt hjl),
            List.getElem?_eq_none (Nat.le_of_not_lt hjl)]
        simp [hjl, hjr, hset]
    · by_cases hij : i = j
      · subst hij
        simp only [hjr, and_false, if_false, List.getElem?_set_self', List.length_set]
        by_cases hil : i < init.length
        · simp [hil, List.getElem?_eq_getElem hil]
        · have hnone : init[i]? = none := List.getElem?_eq_none (by omega)
          simp [hil, hnone]
      · have hji : ¬ j = i := fun h => hij h.symm
        simp only [List.length_set, List.getElem?_set_ne hij]
        simp [List.mem_cons, hji, hjr]

/-- The parallel fill of the results array coincides with the sequential
fill whenever the completion order is a permutation of the task indices. -/
theorem phase1_par_eq_seq (script : Script) (synth : String → SynthOutcome)
    (order : List ℕ)
    (hperm : order.Perm (List.range (flattenPS script).length)) :
    phase1_par script synth order = phase1_seq script synth := by
  apply List.ext_getElem?
  intro j
  rw [phase1_par, foldl_set_get?]
  rw [List.length_replicate]
  by_cases hj : j < (flattenPS script).length
  · have hmem : j ∈ order := hperm.mem_iff.2 (List.mem_range.2 hj)
    rw [if_pos ⟨hj, hmem⟩, phase1_seq, List.getElem?_map]
    obtain ⟨ps, hps⟩ : ∃ ps, (flattenPS script)[j]? = some ps :=
      ⟨_, List.getElem?_eq_getElem hj⟩
    rw [synthAt, List.get?_eq_getElem?, hps]
    simp [hps]
  · have h1 : (List.replicate (flattenPS script).length (none : SynthOutcome))[j]? = none :=
      List.getElem?_eq_none (by simpa using Nat.le_of_not_lt hj)
    have h2 : (phase1_seq script synth)[j]? = none :=
      List.getElem?_eq_none (by simpa [phase1_seq] using Nat.le_of_not_lt hj)
    simp [hj, h1, h2]

/-! ## Reference timeline: the cursor recursion on the flagged outcome
sequence, used to relate the pipeline output to closed-form statements -/

/-- Sentences of one page with a flag marking the first sentence. -/
def markFirst : List Sentence → List (Sentence × Bool)
  | [] => []
  | s :: rest => (s, true) :: rest.map (fun x => (x, false))

/-- Canonical flattened sentence sequence with first-of-page flags. -/
def flat_marked (script : Script) : List (Sentence × Bool) :=
  (script.pages.map (fun p => markFirst p.sentences)).flatten

/-- Timing data of one flagged sentence. -/
def trip (sb : Sentence × Bool) : ℚ × ℚ × Bool :=
  (sb.1.start_sec, sb.1.duration_sec, sb.2)

/-- Timeline view of a processed script: `(start_sec, duration_sec, flag)`
per sentence in canonical order, the flag marking page-initial sentences. -/
def flat_triples (script : Script) : List (ℚ × ℚ × Bool) :=
  (flat_marked script).map trip

/-- Synthesis outcomes of one page with a first-of-page flag. -/
def mark_firstO : List SynthOutcome → List (Bool × SynthOutcome)
  | [] => []
  | r :: rest => (true, r) :: rest.map (fun x => (false, x))

/-- The flagged outcome sequence of a whole script, chunked by the per-page
sentence counts. -/
def script_marks : List ℕ → List SynthOutcome → List (Bool × SynthOutcome)
  | [], _ => []
  | k :: ks, results =>
    mark_firstO (results.take k) ++ script_marks ks (results.drop k)

/-- The cursor recursion of the sequential timeline pass, as a closed
recursive function of the flagged outcome sequence. -/
def build_timeline (pq : ℚ) : ℚ → List (Bool × SynthOutcome) → List (ℚ × ℚ × Bool)
  | _, [] => []
  | c, fr :: rest =>
    let c1 := if fr.1 then c else c + pq
    (c1, durOf fr.2, fr.1) :: build_timeline pq (c1 + durOf fr.2) rest

/-- Final cursor value of `build_timeline`. -/
def build_cursor (pq : ℚ) : ℚ → List (Bool × SynthOutcome) → ℚ
  | c, [] => c
  | c, fr :: rest => build_cursor pq ((if fr.1 then c else c + pq) + durOf fr.2) rest

/-- The per-page `(audio, duration)` result computed from a page's slice of
the results array. -/
def page_result (pause_sec : ℚ) (refSr : ℕ) (chunk : List SynthOutcome) : Audio × ℚ :=
  if chunk.isEmpty then (([] : Audio), (0 : ℚ))
  else
    let combined := concatenate_audio (chunk.map (segOf refSr)) pause_sec refSr
    (combined, calculate_duration combined refSr)

/-- The whole per-page result list, chunked by the per-page sentence counts. -/
def page_results_spec (pause_sec : ℚ) (refSr : ℕ) :
    List ℕ → List SynthOutcome → List (Audio × ℚ)
  | [], _ => []
  | k :: ks, results =>
    page_result pause_sec refSr (results.take k) ::
      page_results_spec pause_sec refSr ks (results.drop k)

/-- Second components of a zip when the second list is not longer. -/
theorem zip_map_snd : ∀ (A : List Sentence) (B : List SynthOutcome),
    B.length ≤ A.length → (A.zip B).map Prod.snd = B
  | _, [], _ => by simp
  | [], _ :: _, h => by simp at h
  | a :: A, b :: B, h => by
    simpa using zip_map_snd A B (Nat.le_of_succ_le_succ h)

/-- The sentence loop started at a positive in-page index realizes the
cursor recursion on the all-false flagged outcome sequence: final cursor,
per-sentence timing fields, and page segments. -/
theorem timeline_page_tail (pause_sec : ℚ) (refSr : ℕ) :
    ∀ (pairs : List (Sentence × SynthOutcome)) (c : ℚ) (i : ℕ), 0 < i →
      (timeline_page pause_sec refSr c i pairs).1 =
          build_cursor (pause_quantum pause_sec refSr) c
            (pairs.map (fun x => (false, x.2))) ∧
        (timeline_page pause_sec refSr c i pairs).2.1.map
            (fun s => (s.start_sec, s.duration_sec, false)) =
          build_timeline (pause_quantum pause_sec refSr) c
            (pairs.map (fun x => (false, x.2))) ∧
        (timeline_page pause_sec refSr c i pairs).2.2 =
          pairs.map (fun x => segOf refSr x.2)
  | [], c, i, hi => by
    simp [timeline_page, build_cursor, build_timeline]
  | (s, r) :: rest, c, i, hi => by
    obtain ⟨h1, h2, h3⟩ := timeline_page_tail pause_sec refSr rest
      (c + pause_quantum pause_sec refSr + durOf r) (i + 1) (Nat.succ_pos i)
    refine ⟨?_, ?_, ?_⟩
    · simpa [timeline_page, build_cursor, hi] using h1
    · simpa [timeline_page, build_timeline, hi] using h2
    · simpa [timeline_page, hi] using h3

/-- The sentence loop of one whole page (in-page index starting at 0)
realizes the cursor recursion on the page's flagged outcome sequence. -/
theorem timeline_page_head (pause_sec : ℚ) (refSr : ℕ)
    (pairs : List (Sentence × SynthOutcome)) (c : ℚ) :
    (timeline_page pause_sec refSr c 0 pairs).1 =
        build_cursor (pause_quantum pause_sec refSr) c
          (mark_firstO (pairs.map Prod.snd)) ∧
      (markFirst (timeline_page pause_sec refSr c 0 pairs).2.1).map trip =
        build_timeline (pause_quantum pause_sec refSr) c
          (mark_firstO (pairs.map Prod.snd)) ∧
      (timeline_page pause_sec refSr c 0 pairs).2.2 =
        pairs.map (fun x => segOf refSr x.2) := by
  match pairs with
  | [] => simp [timeline_page, build_cursor, build_timeline, mark_firstO, markFirst]
  | (s, r) :: rest =>
    obtain ⟨h1, h2, h3⟩ := timeline_page_tail pause_sec refSr rest
      (c + durOf r) 1 Nat.one_pos
    refine ⟨?_, ?_, ?_⟩
    · simpa [timeline_page, build_cursor, mark_firstO, List.map_map,
        Function.comp] using h1
    · simpa [timeline_page, build_timeline, mark_firstO, markFirst, trip,
        List.map_map, Function.comp] using h2
    · simpa [timeline_page, List.map_map, Function.comp] using h3

/-- Appending flagged outcome sequences splits the cursor recursion. -/
theorem build_timeline_append (pq : ℚ) :
    ∀ (m1 m2 : List (Bool × SynthOutcome)) (c : ℚ),
      build_timeline pq c (m1 ++ m2) =
        build_timeline pq c m1 ++ build_timeline pq (build_cursor pq c m1) m2
  | [], m2, c => by simp [build_timeline, build_cursor]
  | fr :: m1, m2, c => by
    simp only [List.cons_append, build_timeline, build_cursor, List.append_eq]
    rw [build_timeline_append pq m1 m2]

/-- Appending flagged outcome sequences splits the final cursor. -/
theorem build_cursor_append (pq : ℚ) :
    ∀ (m1 m2 : List (Bool × SynthOutcome)) (c : ℚ),
      build_cursor pq c (m1 ++ m2) = build_cursor pq (build_cursor pq c m1) m2
  | [], m2, c => by simp [build_cursor]
  | fr :: m1, m2, c => by
    simp only [List.cons_append, build_cursor, List.append_eq]
    rw [build_cursor_append pq m1 m2]

/-- Unfolding of the page loop on a non-empty page list. -/
theorem timeline_pages_cons (pause_sec : ℚ) (refSr : ℕ) (c : ℚ) (p : Page)
    (rest : List Page) (results : List SynthOutcome) :
    timeline_pages pause_sec refSr c (p :: rest) results =
      ((timeline_pages pause_sec refSr
          (timeline_page pause_sec refSr c 0
            (p.sentences.zip (results.take p.sentences.length))).1
          rest (results.drop p.sentences.length)).1,
        { p with sentences :=
            (timeline_page pause_sec refSr c 0
              (p.sentences.zip (results.take p.sentences.length))).2.1 } ::
          (timeline_pages pause_sec refSr
            (timeline_page pause_sec refSr c 0
              (p.sentences.zip (results.take p.sentences.length))).1
            rest (results.drop p.sentences.length)).2.1,
        (if (timeline_page pause_sec refSr c 0
              (p.sentences.zip (results.take p.sentences.length))).2.2.isEmpty then
            (([] : Audio), (0 : ℚ))
          else
            (concatenate_audio
              (timeline_page pause_sec refSr c 0
                (p.sentences.zip (results.take p.sentences.length))).2.2 pause_sec refSr,
              calculate_duration
                (concatenate_audio
                  (timeline_page pause_sec refSr c 0
                    (p.sentences.zip (results.take p.sentences.length))).2.2 pause_sec refSr)
                refSr)) ::
          (timeline_pages pause_sec refSr
            (timeline_page pause_sec refSr c 0
              (p.sentences.zip (results.take p.sentences.length))).1
            rest (results.drop p.sentences.length)).2.2) := rfl

/-- The page loop realizes the cursor recursion on the whole flagged outcome
sequence and produces exactly the chunked per-page results. -/
theorem timeline_pages_spec (pause_sec : ℚ) (refSr : ℕ) :
    ∀ (pages : List Page) (results : List SynthOutcome) (c : ℚ),
      (timeline_pages pause_sec refSr c pages results).1 =
          build_cursor (pause_quantum pause_sec refSr) c
            (script_marks (pages.map (·.sentences.length)) results) ∧
        ((timeline_pages pause_sec refSr c pages results).2.1.map
            (fun p => markFirst p.sentences)).flatten.map trip =
          build_timeline (pause_quantum pause_sec refSr) c
            (script_marks (pages.map (·.sentences.length)) results) ∧
        (timeline_pages pause_sec refSr c pages results).2.2 =
          page_results_spec pause_sec refSr (pages.map (·.sentences.length)) results
  | [], results, c => by
    simp [timeline_pages, build_cursor, build_timeline, script_marks, page_results_spec]
  | p :: rest, results, c => by
    have hlen : (results.take p.sentences.length).length ≤ p.sentences.length := by
      simp [List.length_take]
    have hsnd :
        ((p.sentences.zip (results.take p.sentences.length)).map Prod.snd) =
          results.take p.sentences.length :=
      zip_map_snd _ _ (by simp [List.length_take])
    obtain ⟨hp1, hp2, hp3⟩ := timeline_page_head pause_sec refSr
      (p.sentences.zip (results.take p.sentences.length)) c
    rw [hsnd] at hp1 hp2
    obtain ⟨hr1, hr2, hr3⟩ := timeline_pages_spec pause_sec refSr rest
      (results.drop p.sentences.length)
      ((timeline_page pause_sec refSr c 0
        (p.sentences.zip (results.take p.sentences.length))).1)
    have hseg :
        (timeline_page pause_sec refSr c 0
            (p.sentences.zip (results.take p.sentences.length))).2.2 =
          (results.take p.sentences.length).map (segOf refSr) := by
      rw [hp3]
      conv_rhs => rw [← hsnd]
      rw [List.map_map]
      exact List.map_congr_left (fun x _ => rfl)
    have hsegEmpty :
        ((results.take p.sentences.length).map (segOf refSr)).isEmpty =
          (results.take p.sentences.length).isEmpty := by
      cases results.take p.sentences.length <;> simp
    refine ⟨?_, ?_, ?_⟩
    · rw [timeline_pages_cons, List.map_cons, script_marks, build_cursor_append]
      rw [hr1, hp1]
    · rw [timeline_pages_cons]
      simp only [List.map_cons, List.flatten_cons, List.map_append]
      rw [script_marks, build_timeline_append, hp2, hr2, hp1]
    · rw [timeline_pages_cons]
      rw [hr3]
      rw [List.map_cons, page_results_spec]
      rw [hseg, page_result]
      by_cases he : (results.take p.sentences.length).isEmpty
      · rw [if_pos (by rw [hsegEmpty]; exact he), if_pos he]
      · rw [if_neg (by rw [hsegEmpty]; exact he), if_neg he]

/-- Every assigned duration is non-negative: a successful synthesis yields
`sample_count / sample_rate` and a failure yields the 1.0-second
substitution. -/
theorem durOf_nonneg (r : SynthOutcome) : 0 ≤ durOf r := by
  cases r with
  | none => norm_num [durOf]
  | some x =>
    obtain ⟨samples, sr⟩ := x
    simp only [durOf]
    positivity

/-- A non-negative configured pause quantizes to a non-negative advance. -/
theorem pause_quantum_nonneg (pause_sec : ℚ) (sr : ℕ) (h : 0 ≤ pause_sec) :
    0 ≤ pause_quantum pause_sec sr := by
  unfold pause_quantum pyInt
  have h0 : (0 : ℚ) ≤ pause_sec * sr := by positivity
  rw [if_pos h0]
  have hf : (0 : ℤ) ≤ ⌊pause_sec * (sr : ℚ)⌋ := Int.floor_nonneg.2 h0
  exact div_nonneg (by exact_mod_cast hf) (by positivity)

/-- The quantized pause vanishes exactly when the whole-sample count
`int(pause_sec * sr)` vanishes. -/
theorem pause_quantum_eq_zero_iff (pause_sec : ℚ) (sr : ℕ) :
    pause_quantum pause_sec sr = 0 ↔ pyInt (pause_sec * sr) = 0 := by
  unfold pause_quantum
  rcases Nat.eq_zero_or_pos sr with h | h
  · subst h
    simp [pyInt]
  · have hsr : ((sr : ℚ)) ≠ 0 := by positivity
    rw [div_eq_zero_iff]
    constructor
    · rintro (h0 | h0)
      · exact_mod_cast h0
      · exact absurd h0 hsr
    · intro h0
      exact Or.inl (by exact_mod_cast h0)

/-- Head of the reference timeline. -/
theorem build_timeline_head (pq : ℚ) (c : ℚ) (l : List (Bool × SynthOutcome)) :
    (build_timeline pq c l).head? =
      l.head?.map (fun fr => ((if fr.1 then c else c + pq), durOf fr.2, fr.1)) := by
  cases l <;> simp [build_timeline]

/-- Adjacency along the reference timeline: each start is the previous end
plus the quantized pause, except that page-initial sentences add no pause. -/
theorem build_timeline_chain (pq : ℚ) :
    ∀ (c : ℚ) (l : List (Bool × SynthOutcome)),
      List.Chain' (fun a b : ℚ × ℚ × Bool =>
        b.1 = a.1 + a.2.1 + (if b.2.2 = true then 0 else pq)) (build_timeline pq c l)
  | _, [] => List.chain'_nil
  | c, fr :: rest => by
    rw [build_timeline, List.chain'_cons']
    refine ⟨?_, build_timeline_chain pq _ rest⟩
    intro y hy
    rw [build_timeline_head] at hy
    cases rest with
    | nil => simp at hy
    | cons fr2 rest2 =>
      simp only [List.head?_cons, Option.map_some', Option.mem_def, Option.some.injEq] at hy
      subst hy
      cases hb : fr2.1 <;> simp [hb]

/-- Every duration along the reference timeline is non-negative. -/
theorem build_timeline_dur_nonneg (pq : ℚ) :
    ∀ (c : ℚ) (l : List (Bool × SynthOutcome)) (t : ℚ × ℚ × Bool),
      t ∈ build_timeline pq c l → 0 ≤ t.2.1
  | _, [], t, ht => by simp [build_timeline] at ht
  | c, fr :: rest, t, ht => by
    rw [build_timeline, List.mem_cons] at ht
    rcases ht with h | h
    · subst h
      exact durOf_nonneg fr.2
    · exact build_timeline_dur_nonneg pq _ rest t h

/-- Indexed duration view of the reference timeline. -/
theorem build_timeline_get_dur (pq : ℚ) :
    ∀ (c : ℚ) (l : List (Bool × SynthOutcome)) (j : ℕ),
      (build_timeline pq c l)[j]?.map (fun t => t.2.1) =
        l[j]?.map (fun fr => durOf fr.2)
  | _, [], j => by simp [build_timeline]
  | c, fr :: rest, j => by
    cases j with
    | zero => simp [build_timeline]
    | succ j => simpa [build_timeline] using build_timeline_get_dur pq _ rest j

/-- Indexed flag view of the reference timeline. -/
theorem build_timeline_get_flag (pq : ℚ) :
    ∀ (c : ℚ) (l : List (Bool × SynthOutcome)) (j : ℕ),
      (build_timeline pq c l)[j]?.map (fun t => t.2.2) = l[j]?.map (fun fr => fr.1)
  | _, [], j => by simp [build_timeline]
  | c, fr :: rest, j => by
    cases j with
    | zero => simp [build_timeline]
    | succ j => simpa [build_timeline] using build_timeline_get_flag pq _ rest j

/-- Length of the reference timeline. -/
theorem build_timeline_length (pq : ℚ) :
    ∀ (c : ℚ) (l : List (Bool × SynthOutcome)),
      (build_timeline pq c l).length = l.length
  | _, [] => by simp [build_timeline]
  | c, fr :: rest => by
    rw [build_timeline]
    simpa using build_timeline_length pq _ rest

/-- Monotonicity along the reference timeline under a non-negative quantized
pause, with the exact characterization of gap-free neighbours. -/
theorem build_chain_mono (pq : ℚ) (hpq : 0 ≤ pq) :
    ∀ (c : ℚ) (l : List (Bool × SynthOutcome)),
      List.Chain' (fun a b : ℚ × ℚ × Bool => a.1 ≤ b.1) (build_timeline pq c l) ∧
        List.Chain' (fun a b : ℚ × ℚ × Bool =>
            a.1 + a.2.1 ≤ b.1 ∧ (a.1 + a.2.1 = b.1 ↔ (b.2.2 = true ∨ pq = 0)))
          (build_timeline pq c l)
  | _, [] => ⟨List.chain'_nil, List.chain'_nil⟩
  | c, fr :: rest => by
    obtain ⟨ih1, ih2⟩ := build_chain_mono pq hpq ((if fr.1 then c else c + pq) + durOf fr.2) rest
    rw [build_timeline]
    constructor
    · rw [List.chain'_cons']
      refine ⟨?_, ih1⟩
      intro y hy
      rw [build_timeline_head] at hy
      cases rest with
      | nil => simp at hy
      | cons fr2 rest2 =>
        simp only [List.head?_cons, Option.map_some', Option.mem_def,
          Option.some.injEq] at hy
        subst hy
        have hd := durOf_nonneg fr.2
        cases hb : fr2.1 <;> simp [hb] <;> linarith
    · rw [List.chain'_cons']
      refine ⟨?_, ih2⟩
      intro y hy
      rw [build_timeline_head] at hy
      cases rest with
      | nil => simp at hy
      | cons fr2 rest2 =>
        simp only [List.head?_cons, Option.map_some', Option.mem_def,
          Option.some.injEq] at hy
        subst hy
        cases hb : fr2.1 with
        | true => simp [hb]
        | false =>
          simp only [hb, Bool.false_eq_true, if_false, false_or]
          refine ⟨le_add_of_nonneg_right hpq, ?_, ?_⟩
          · intro he
            exact (self_eq_add_right.mp he)
          · intro hpz
            rw [hpz]
            ring

/-- Truncation of a rational in `[0, 1)` is zero. -/
theorem pyInt_of_lt_one {q : ℚ} (h0 : 0 ≤ q) (h1 : q < 1) : pyInt q = 0 := by
  unfold pyInt
  rw [if_pos h0]
  exact Int.floor_eq_zero_iff.mpr (Set.mem_Ico.mpr ⟨h0, h1⟩)

/-- Truncation of an integer-valued rational. -/
theorem pyInt_intCast (n : ℤ) : pyInt (n : ℚ) = n := by
  unfold pyInt
  rcases le_or_lt 0 (n : ℚ) with h | h
  · rw [if_pos h, Int.floor_intCast]
  · rw [if_neg (not_le.mpr h), Int.ceil_intCast]

/-- Phases 2-3 of the pipeline realize the reference timeline on the flagged
outcome sequence, and the chunked per-page results. -/
theorem run_phase2_spec (script : Script) (results : List SynthOutcome)
    (pause_sec : ℚ) (engine_sr : ℕ) :
    flat_triples (run_phase2 script results pause_sec engine_sr).1 =
        build_timeline
          (pause_quantum pause_sec ((first_actual_sr results).getD engine_sr)) 0
          (script_marks (script.pages.map (·.sentences.length)) results) ∧
      (run_phase2 script results pause_sec engine_sr).2 =
        page_results_spec pause_sec ((first_actual_sr results).getD engine_sr)
          (script.pages.map (·.sentences.length)) results := by
  obtain ⟨h1, h2, h3⟩ := timeline_pages_spec pause_sec
    ((first_actual_sr results).getD engine_sr) script.pages results 0
  constructor
  · simpa [run_phase2, flat_triples, flat_marked] using h2
  · simpa [run_phase2] using h3

/-- C1: for every script and every deterministic per-sentence synthesis
behaviour, running the pipeline with worker pool size 1 and with any pool
size N > 1 (under any completion order of the parallel tasks) assigns
identical `start_sec` and `duration_sec` to every sentence and returns an
identical per-page (audio, duration) list: results are stored into an
index-addressed array by canonical index and the timeline pass is a single
sequential walk of that array. -/
theorem pool_size_independent (script : Script) (synth : String → SynthOutcome)
    (pause_sec : ℚ) (engine_sr : ℕ) (N : ℕ) (hN : 1 < N) (order order1 : List ℕ)
    (hperm : order.Perm (List.range (flattenPS script).length)) :
    process_all_pages script synth pause_sec engine_sr N order =
      process_all_pages script synth pause_sec engine_sr 1 order1 := by
  unfold process_all_pages
  rw [if_neg (by omega), if_pos (le_refl 1),
    phase1_par_eq_seq script synth order hperm]

/-- Witness for C1 at a concrete two-sentence script, pool size 2, and the
reversed completion order. -/
theorem pool_size_independent_witness :
    1 < 2 ∧
      [1, 0].Perm (List.range
        (flattenPS ⟨[⟨1, 0, [⟨"a", 0, 0, none, 0, 0⟩, ⟨"b", 0, 1, none, 0, 0⟩]⟩]⟩).length) ∧
      process_all_pages ⟨[⟨1, 0, [⟨"a", 0, 0, none, 0, 0⟩, ⟨"b", 0, 1, none, 0, 0⟩]⟩]⟩
            (fun _ => none) (1/2) 48000 2 [1, 0] =
        process_all_pages ⟨[⟨1, 0, [⟨"a", 0, 0, none, 0, 0⟩, ⟨"b", 0, 1, none, 0, 0⟩]⟩]⟩
            (fun _ => none) (1/2) 48000 1 [] :=
  ⟨by norm_num, by decide,
    pool_size_independent _ _ (1/2) 48000 2 (by norm_num) [1, 0] [] (by decide)⟩

/-- C4: along the processed timeline, every sentence start equals the
previous sentence's end advanced by `int(pause_sec * sr) / sr` seconds at the
reference rate, except that the first sentence of each page receives no pause
advance; the quantized pause is by construction an exact whole number of
sample periods. -/
theorem pause_advance_whole_samples (script : Script) (results : List SynthOutcome)
    (pause_sec : ℚ) (engine_sr : ℕ) :
    List.Chain' (fun a b : ℚ × ℚ × Bool =>
        b.1 = a.1 + a.2.1 +
          (if b.2.2 = true then 0
            else pause_quantum pause_sec ((first_actual_sr results).getD engine_sr)))
        (flat_triples (run_phase2 script results pause_sec engine_sr).1) ∧
      pause_quantum pause_sec ((first_actual_sr results).getD engine_sr) =
        ((pyInt (pause_sec * ((first_actual_sr results).getD engine_sr)) : ℤ) : ℚ) /
          ((first_actual_sr results).getD engine_sr) ∧
      ∃ n : ℤ, pause_quantum pause_sec ((first_actual_sr results).getD engine_sr) =
        n * (1 / ((first_actual_sr results).getD engine_sr)) := by
  refine ⟨?_, rfl, ⟨pyInt (pause_sec * ((first_actual_sr results).getD engine_sr)),
    by rw [pause_quantum, mul_one_div]⟩⟩
  rw [(run_phase2_spec script results pause_sec engine_sr).1]
  exact build_timeline_chain _ 0 _

/-- C2 (amended): in canonical flattened order the processed `start_sec`
values are non-decreasing, and every consecutive pair satisfies
`start_sec[i] + duration_sec[i] <= start_sec[i+1]`, with equality exactly
when no quantized pause separates the pair: at page boundaries, or when the
configured pause rounded down to whole samples at the reference rate is zero
(in particular whenever the configured pause is zero). -/
theorem timeline_monotone_quantized_gaps (script : Script)
    (results : List SynthOutcome) (pause_sec : ℚ) (engine_sr : ℕ)
    (hp : 0 ≤ pause_sec) :
    List.Chain' (fun a b : ℚ × ℚ × Bool => a.1 ≤ b.1)
        (flat_triples (run_phase2 script results pause_sec engine_sr).1) ∧
      List.Chain' (fun a b : ℚ × ℚ × Bool =>
          a.1 + a.2.1 ≤ b.1 ∧
            (a.1 + a.2.1 = b.1 ↔
              (b.2.2 = true ∨
                pyInt (pause_sec * ((first_actual_sr results).getD engine_sr)) = 0)))
        (flat_triples (run_phase2 script results pause_sec engine_sr).1) := by
  rw [(run_phase2_spec script results pause_sec engine_sr).1]
  obtain ⟨hm1, hm2⟩ := build_chain_mono
    (pause_quantum pause_sec ((first_actual_sr results).getD engine_sr))
    (pause_quantum_nonneg pause_sec _ hp) 0
    (script_marks (script.pages.map (·.sentences.length)) results)
  refine ⟨hm1, hm2.imp ?_⟩
  intro a b hab
  exact ⟨hab.1, hab.2.trans (or_congr_right (pause_quantum_eq_zero_iff pause_sec _))⟩

/-- Counterexample to C2 as stated: with a configured pause of 1/100 s and a
reference rate of 10 Hz the pause quantizes to zero whole samples, so the
two sentences of the single page are back to back
(`start_sec[1] = start_sec[0] + duration_sec[0]`, second flag `false`: not a
page boundary) even though the configured pause is non-zero — refuting
"equality exactly at page boundaries or when the configured pause is zero". -/
theorem timeline_gap_counterexample :
    (1/100 : ℚ) ≠ 0 ∧
      flat_triples
          (run_phase2 ⟨[⟨1, 0, [⟨"a", 0, 0, none, 0, 0⟩, ⟨"b", 0, 1, none, 0, 0⟩]⟩]⟩
            [some ([0], 10), some ([0], 10)] (1/100) 10).1 =
        [(0, 1/10, true), (0 + 1/10, 1/10, false)] := by
  refine ⟨by norm_num, ?_⟩
  rw [(run_phase2_spec _ _ _ _).1]
  rw [show (first_actual_sr [some (([0] : Audio), 10), some ([0], 10)]).getD 10 = 10
    from rfl]
  have hpq : pause_quantum (1/100) 10 = 0 := by
    rw [pause_quantum, pyInt_of_lt_one (by norm_num) (by norm_num)]
    norm_num
  have hd : durOf (some (([0] : Audio), 10)) = 1/10 := by
    norm_num [durOf]
  rw [show (1/100 : ℚ) = 100⁻¹ from one_div 100] at hpq
  simp only [show (⟨[⟨1, 0, [⟨"a", 0, 0, none, 0, 0⟩, ⟨"b", 0, 1, none, 0, 0⟩]⟩]⟩ :
        Script).pages.map (·.sentences.length) = [2] from rfl]
  simp [script_marks, mark_firstO, build_timeline, hpq, hd]

/-- Witness for the amended C2 at the concrete two-sentence run. -/
theorem timeline_monotone_quantized_gaps_witness :
    (0 : ℚ) ≤ 1/100 ∧
      List.Chain' (fun a b : ℚ × ℚ × Bool => a.1 ≤ b.1)
        (flat_triples
          (run_phase2 ⟨[⟨1, 0, [⟨"a", 0, 0, none, 0, 0⟩, ⟨"b", 0, 1, none, 0, 0⟩]⟩]⟩
            [some ([0], 10), some ([0], 10)] (1/100) 10).1) :=
  ⟨by norm_num,
    (timeline_monotone_quantized_gaps _ _ (1/100) 10 (by norm_num)).1⟩

/-- Splitting a take at a sum of counts. -/
theorem take_add' : ∀ (l : List SynthOutcome) (m n : ℕ),
    l.take (m + n) = l.take m ++ (l.drop m).take n
  | [], m, n => by simp
  | x :: xs, 0, n => by simp
  | x :: xs, m + 1, n => by
    have h : m + 1 + n = (m + n) + 1 := by omega
    rw [h, List.take_succ_cons, List.take_succ_cons, List.drop_succ_cons,
      take_add' xs m n, List.cons_append]

/-- Flags stripped from one page's flagged outcomes give back the outcomes. -/
theorem mark_firstO_snd (l : List SynthOutcome) :
    (mark_firstO l).map Prod.snd = l := by
  cases l with
  | nil => rfl
  | cons r rest => simp [mark_firstO, List.map_map, Function.comp_def]

/-- Flags stripped from the whole flagged outcome sequence give back the
results array truncated to the script's sentence count. -/
theorem script_marks_snd : ∀ (lens : List ℕ) (results : List SynthOutcome),
    (script_marks lens results).map Prod.snd = results.take lens.sum
  | [], results => by simp [script_marks]
  | k :: ks, results => by
    rw [script_marks, List.map_append, mark_firstO_snd, script_marks_snd ks,
      List.sum_cons, take_add']

/-- Adjacent entries of the reference timeline, by index. -/
theorem build_timeline_step (pq : ℚ) :
    ∀ (c : ℚ) (l : List (Bool × SynthOutcome)) (j : ℕ) (t t' : ℚ × ℚ × Bool),
      (build_timeline pq c l)[j]? = some t →
      (build_timeline pq c l)[j + 1]? = some t' →
      t'.1 = t.1 + t.2.1 + (if t'.2.2 = true then 0 else pq)
  | _, [], j, t, t', ht, _ => by simp [build_timeline] at ht
  | c, fr :: rest, 0, t, t', ht, ht' => by
    rw [build_timeline] at ht ht'
    simp only [List.getElem?_cons_zero, Option.some.injEq] at ht
    simp only [List.getElem?_cons_succ] at ht'
    cases rest with
    | nil => rw [build_timeline] at ht'; simp at ht'
    | cons fr2 rest2 =>
      rw [build_timeline] at ht'
      simp only [List.getElem?_cons_zero, Option.some.injEq] at ht'
      subst ht
      subst ht'
      cases hb : fr2.1 <;> simp [hb]
  | c, fr :: rest, j + 1, t, t', ht, ht' => by
    rw [build_timeline] at ht ht'
    simp only [List.getElem?_cons_succ] at ht ht'
    exact build_timeline_step pq _ rest j t t' ht ht'

/-- Truncation of a natural-valued rational. -/
theorem pyInt_natCast (n : ℕ) : pyInt (n : ℚ) = n := by
  have h := pyInt_intCast (n : ℤ)
  rw [Int.cast_natCast] at h
  exact h

/-- One second of substituted silence holds exactly `sr` zero samples. -/
theorem generate_silence_one_second (sr : ℕ) :
    generate_silence 1 sr = List.replicate sr (0 : ℚ) ∧
      (generate_silence 1 sr).length = sr := by
  have h : pyInt ((1 : ℚ) * sr) = (sr : ℤ) := by
    rw [one_mul, pyInt_natCast]
  constructor
  · rw [generate_silence, h]
    simp
  · rw [generate_silence, h]
    simp

/-- In any run, a sentence whose synthesis task failed is assigned the
1.0-second substituted duration. -/
theorem run_dur_at_failure (script : Script) (results : List SynthOutcome)
    (pause_sec : ℚ) (engine_sr : ℕ) (k : ℕ)
    (hk : results[k]? = some none) (hkl : k < script.total_sentences) :
    (flat_triples (run_phase2 script results pause_sec engine_sr).1)[k]?.map
      (fun t => t.2.1) = some 1 := by
  rw [(run_phase2_spec script results pause_sec engine_sr).1,
    build_timeline_get_dur]
  have h1 := script_marks_snd (script.pages.map (·.sentences.length)) results
  have hkl' : k < (script.pages.map (fun x => x.sentences.length)).sum := hkl
  have h2 : ((script_marks (script.pages.map (·.sentences.length)) results).map
      Prod.snd)[k]? = some none := by
    rw [h1, List.getElem?_take_of_lt hkl']
    exact hk
  rw [List.getElem?_map] at h2
  cases hm : (script_marks (script.pages.map (·.sentences.length)) results)[k]? with
  | none => rw [hm] at h2; simp at h2
  | some fr =>
    rw [hm] at h2
    simp only [Option.map_some', Option.some.injEq] at h2
    simp [h2, durOf]

/-- When the results array covers every sentence, the processed timeline has
one entry per sentence of the script. -/
theorem run_triples_length (script : Script) (results : List SynthOutcome)
    (pause_sec : ℚ) (engine_sr : ℕ)
    (hlen : script.total_sentences ≤ results.length) :
    (flat_triples (run_phase2 script results pause_sec engine_sr).1).length =
      script.total_sentences := by
  rw [(run_phase2_spec script results pause_sec engine_sr).1,
    build_timeline_length]
  have h := congrArg List.length
    (script_marks_snd (script.pages.map (·.sentences.length)) results)
  rw [List.length_map, List.length_take] at h
  rw [h]
  exact Nat.min_eq_left hlen

/-- C5: if the synthesis task of canonical sentence `k` failed, the pipeline
assigns `duration_sec = 1.0` to sentence `k`, still processes every sentence
of the script, builds each page buffer from the per-sentence segments with
the failed slot holding exactly one second of silence at the reference rate,
and starts sentence `k+1` exactly 1.0 second (plus the quantized pause when
`k+1` is not page-initial) after sentence `k`. -/
theorem synthesis_failure_isolated (script : Script) (results : List SynthOutcome)
    (pause_sec : ℚ) (engine_sr : ℕ) (k : ℕ)
    (hk : results[k]? = some none)
    (hkl : k < script.total_sentences)
    (hlen : results.length = script.total_sentences) :
    (flat_triples (run_phase2 script results pause_sec engine_sr).1)[k]?.map
        (fun t => t.2.1) = some 1 ∧
      (flat_triples (run_phase2 script results pause_sec engine_sr).1).length =
        script.total_sentences ∧
      (run_phase2 script results pause_sec engine_sr).2 =
        page_results_spec pause_sec ((first_actual_sr results).getD engine_sr)
          (script.pages.map (·.sentences.length)) results ∧
      segOf ((first_actual_sr results).getD engine_sr) none =
        generate_silence 1 ((first_actual_sr results).getD engine_sr) ∧
      (generate_silence 1 ((first_actual_sr results).getD engine_sr)).length =
        (first_actual_sr results).getD engine_sr ∧
      (∀ t t',
        (flat_triples (run_phase2 script results pause_sec engine_sr).1)[k]? = some t →
        (flat_triples (run_phase2 script results pause_sec engine_sr).1)[k + 1]? = some t' →
        t'.1 = t.1 + 1 +
          (if t'.2.2 = true then 0
            else pause_quantum pause_sec ((first_actual_sr results).getD engine_sr))) := by
  refine ⟨run_dur_at_failure script results pause_sec engine_sr k hk hkl,
    run_triples_length script results pause_sec engine_sr (le_of_eq hlen.symm),
    (run_phase2_spec script results pause_sec engine_sr).2, rfl,
    (generate_silence_one_second _).2, ?_⟩
  intro t t' ht ht'
  have hdur := run_dur_at_failure script results pause_sec engine_sr k hk hkl
  rw [ht] at hdur
  simp only [Option.map_some', Option.some.injEq] at hdur
  rw [(run_phase2_spec script results pause_sec engine_sr).1] at ht ht'
  have hstep := build_timeline_step
    (pause_quantum pause_sec ((first_actual_sr results).getD engine_sr)) 0
    (script_marks (script.pages.map (·.sentences.length)) results) k t t' ht ht'
  rw [hstep, hdur]

/-- Witness for C5: a one-page script whose first sentence fails while the
second succeeds. -/
theorem synthesis_failure_isolated_witness :
    ([none, some (([0] : Audio), 1)] : List SynthOutcome)[0]? = some none ∧
      (flat_triples
          (run_phase2 ⟨[⟨1, 0, [⟨"a", 0, 0, none, 0, 0⟩, ⟨"b", 0, 1, none, 0, 0⟩]⟩]⟩
            [none, some ([0], 1)] (1/2) 48000).1)[0]?.map (fun t => t.2.1) = some 1 :=
  ⟨rfl,
    (synthesis_failure_isolated ⟨[⟨1, 0, [⟨"a", 0, 0, none, 0, 0⟩, ⟨"b", 0, 1, none, 0, 0⟩]⟩]⟩
      [none, some ([0], 1)] (1/2) 48000 0 rfl (by decide) (by decide)).1⟩

/-- When every task failed, no reference rate is established. -/
theorem first_actual_sr_none (results : List SynthOutcome)
    (hall : ∀ r ∈ results, r = none) : first_actual_sr results = none := by
  rw [first_actual_sr, List.filterMap_eq_nil_iff.mpr (by simpa using hall)]
  rfl

/-- Every duration along the reference timeline comes from some outcome. -/
theorem build_timeline_dur_mem (pq : ℚ) :
    ∀ (c : ℚ) (l : List (Bool × SynthOutcome)) (t : ℚ × ℚ × Bool),
      t ∈ build_timeline pq c l → ∃ fr ∈ l, t.2.1 = durOf fr.2
  | _, [], t, ht => by simp [build_timeline] at ht
  | c, fr :: rest, t, ht => by
    rw [build_timeline, List.mem_cons] at ht
    rcases ht with h | h
    · exact ⟨fr, List.mem_cons_self fr rest, by rw [h]⟩
    · obtain ⟨fr2, hfr2, he⟩ := build_timeline_dur_mem pq _ rest t h
      exact ⟨fr2, List.mem_cons_of_mem fr hfr2, he⟩

/-- Outcomes of the flagged sequence all come from the results array. -/
theorem script_marks_mem (lens : List ℕ) (results : List SynthOutcome)
    (fr : Bool × SynthOutcome) (h : fr ∈ script_marks lens results) :
    fr.2 ∈ results := by
  have h1 : fr.2 ∈ (script_marks lens results).map Prod.snd :=
    List.mem_map_of_mem Prod.snd h
  rw [script_marks_snd] at h1
  exact List.mem_of_mem_take h1

/-- The chunked per-page result list has one entry per page. -/
theorem page_results_spec_length (pause_sec : ℚ) (refSr : ℕ) :
    ∀ (lens : List ℕ) (results : List SynthOutcome),
      (page_results_spec pause_sec refSr lens results).length = lens.length
  | [], _ => rfl
  | k :: ks, results => by
    rw [page_results_spec, List.length_cons,
      page_results_spec_length pause_sec refSr ks, List.length_cons]

/-- C10: when every synthesis task of a run fails, the pipeline still
terminates with a complete result: no reference rate is established, so the
engine's advertised rate is used throughout — every sentence receives
`duration_sec = 1.0`, every appended segment is one second of silence at the
advertised rate, pause quantization and page-buffer concatenation use the
advertised rate, and the per-page result list still has one entry per page. -/
theorem all_failures_run_completes (script : Script) (results : List SynthOutcome)
    (pause_sec : ℚ) (engine_sr : ℕ)
    (hall : ∀ r ∈ results, r = none) :
    first_actual_sr results = none ∧
      (∀ t ∈ flat_triples (run_phase2 script results pause_sec engine_sr).1,
        t.2.1 = 1) ∧
      (∀ r ∈ results, segOf engine_sr r = generate_silence 1 engine_sr) ∧
      List.Chain' (fun a b : ℚ × ℚ × Bool =>
          b.1 = a.1 + a.2.1 +
            (if b.2.2 = true then 0 else pause_quantum pause_sec engine_sr))
        (flat_triples (run_phase2 script results pause_sec engine_sr).1) ∧
      (run_phase2 script results pause_sec engine_sr).2 =
        page_results_spec pause_sec engine_sr
          (script.pages.map (·.sentences.length)) results ∧
      (run_phase2 script results pause_sec engine_sr).2.length =
        script.pages.length := by
  have hnone := first_actual_sr_none results hall
  have href : (first_actual_sr results).getD engine_sr = engine_sr := by
    rw [hnone]
    rfl
  obtain ⟨hspec1, hspec2⟩ := run_phase2_spec script results pause_sec engine_sr
  rw [href] at hspec1 hspec2
  refine ⟨hnone, ?_, ?_, ?_, hspec2, ?_⟩
  · intro t ht
    rw [hspec1] at ht
    obtain ⟨fr, hfr, he⟩ := build_timeline_dur_mem _ _ _ t ht
    have h2 : fr.2 = none := hall fr.2 (script_marks_mem _ results fr hfr)
    rw [he, h2]
    rfl
  · intro r hr
    rw [hall r hr]
    rfl
  · have := build_timeline_chain (pause_quantum pause_sec engine_sr) 0
      (script_marks (script.pages.map (·.sentences.length)) results)
    rw [hspec1]
    exact this
  · rw [hspec2, page_results_spec_length, List.length_map]

/-- Witness for C10: a one-page, one-sentence script whose only task fails. -/
theorem all_failures_run_completes_witness :
    (∀ r ∈ ([none] : List SynthOutcome), r = none) ∧
      first_actual_sr [none] = none :=
  ⟨by decide,
    (all_failures_run_completes ⟨[⟨1, 0, [⟨"a", 0, 0, none, 0, 0⟩]⟩]⟩ [none]
      (1/2) 48000 (by decide)).1⟩

/-- Test fixture for the concrete C3 scenario: one page with three
sentences. -/
def exampleScript3 : Script :=
  ⟨[⟨1, 0, [⟨"s1", 0, 0, none, 0, 0⟩, ⟨"s2", 0, 1, none, 0, 0⟩,
    ⟨"s3", 0, 2, none, 0, 0⟩]⟩]⟩

/-- Test fixture for C3: a synthesis stub returning exactly 2.0 seconds of
audio (96000 zero samples) at 48000 Hz for every sentence. -/
def stub2s : String → SynthOutcome :=
  fun _ => some (List.replicate 96000 (0 : ℚ), 48000)

/-- C3: on a one-page, three-sentence script with `pause_sec = 0.5` and a
stub returning 2.0-second clips at 48000 Hz, the pipeline assigns
`start_sec = [0.0, 2.5, 5.0]` and returns a page duration of 7.0 seconds
(the segment-buffer sum including the two quantized pauses). -/
theorem three_sentence_page_timeline :
    (flat_triples (process_all_pages exampleScript3 stub2s (1/2) 48000 1 []).1).map
        (fun t => t.1) = [0, 5/2, 5] ∧
      (process_all_pages exampleScript3 stub2s (1/2) 48000 1 []).2.map Prod.snd = [7] := by
  have h24 : pyInt ((1 : ℚ)/2 * ((48000 : ℕ) : ℚ)) = ((24000 : ℕ) : ℤ) := by
    rw [show ((1 : ℚ)/2 * ((48000 : ℕ) : ℚ)) = ((24000 : ℕ) : ℚ) by push_cast; norm_num]
    exact pyInt_natCast 24000
  have hpq : pause_quantum (1/2) 48000 = 1/2 := by
    rw [pause_quantum, h24]
    push_cast
    norm_num
  have hdur : durOf (some (List.replicate 96000 (0 : ℚ), 48000)) = 2 := by
    simp only [durOf, List.length_replicate]
    push_cast
    norm_num
  have hrun : process_all_pages exampleScript3 stub2s (1/2) 48000 1 [] =
      run_phase2 exampleScript3
        [some (List.replicate 96000 (0 : ℚ), 48000),
          some (List.replicate 96000 (0 : ℚ), 48000),
          some (List.replicate 96000 (0 : ℚ), 48000)] (1/2) 48000 := rfl
  have hgetd :
      (first_actual_sr
        [some (List.replicate 96000 (0 : ℚ), 48000),
          some (List.replicate 96000 (0 : ℚ), 48000),
          some (List.replicate 96000 (0 : ℚ), 48000)]).getD 48000 = 48000 := rfl
  have hmarks :
      script_marks (exampleScript3.pages.map (·.sentences.length))
        [some (List.replicate 96000 (0 : ℚ), 48000),
          some (List.replicate 96000 (0 : ℚ), 48000),
          some (List.replicate 96000 (0 : ℚ), 48000)] =
      [(true, some (List.replicate 96000 (0 : ℚ), 48000)),
        (false, some (List.replicate 96000 (0 : ℚ), 48000)),
        (false, some (List.replicate 96000 (0 : ℚ), 48000))] := rfl
  have hsil : generate_silence (1/2) 48000 = List.replicate 24000 (0 : ℚ) := by
    rw [generate_silence, h24, Int.toNat_natCast]
  constructor
  · rw [hrun, (run_phase2_spec _ _ _ _).1, hgetd, hmarks, hpq]
    simp only [build_timeline, hdur, List.map_cons, List.map_nil]
    norm_num
  · rw [hrun, (run_phase2_spec _ _ _ _).2, hgetd]
    rw [show exampleScript3.pages.map (·.sentences.length) = [3] from rfl]
    rw [show page_results_spec (1/2) 48000 [3]
        [some (List.replicate 96000 (0 : ℚ), 48000),
          some (List.replicate 96000 (0 : ℚ), 48000),
          some (List.replicate 96000 (0 : ℚ), 48000)] =
      [page_result (1/2) 48000
        [some (List.replicate 96000 (0 : ℚ), 48000),
          some (List.replicate 96000 (0 : ℚ), 48000),
          some (List.replicate 96000 (0 : ℚ), 48000)]] from rfl]
    have hchunk : ([some (List.replicate 96000 (0 : ℚ), 48000),
        some (List.replicate 96000 (0 : ℚ), 48000),
        some (List.replicate 96000 (0 : ℚ), 48000)] : List SynthOutcome).map
          (segOf 48000) =
        [List.replicate 96000 (0 : ℚ), List.replicate 96000 (0 : ℚ),
          List.replicate 96000 (0 : ℚ)] := rfl
    rw [page_result,
      if_neg (by rw [List.isEmpty_cons]; exact Bool.false_ne_true), hchunk]
    have hlen : (concatenate_audio
        [List.replicate 96000 (0 : ℚ), List.replicate 96000 (0 : ℚ),
          List.replicate 96000 (0 : ℚ)] (1/2) 48000).length = 336000 := by
      rw [show concatenate_audio
          [List.replicate 96000 (0 : ℚ), List.replicate 96000 (0 : ℚ),
            List.replicate 96000 (0 : ℚ)] (1/2) 48000 =
        (List.intersperse (generate_silence (1/2) 48000)
          [List.replicate 96000 (0 : ℚ), List.replicate 96000 (0 : ℚ),
            List.replicate 96000 (0 : ℚ)]).flatten from rfl]
      rw [hsil]
      rw [show List.intersperse (List.replicate 24000 (0 : ℚ))
          [List.replicate 96000 (0 : ℚ), List.replicate 96000 (0 : ℚ),
            List.replicate 96000 (0 : ℚ)] =
        [List.replicate 96000 (0 : ℚ), List.replicate 24000 (0 : ℚ),
          List.replicate 96000 (0 : ℚ), List.replicate 24000 (0 : ℚ),
          List.replicate 96000 (0 : ℚ)] from rfl]
      rw [List.length_flatten]
      simp only [List.map_cons, List.map_nil, List.length_replicate]
      norm_num
    simp only [List.map_cons, List.map_nil, calculate_duration, hlen]
    push_cast
    norm_num

/-- The canonical flattened sequence has one entry per sentence. -/
theorem flattenPS_length (script : Script) :
    (flattenPS script).length = script.total_sentences := by
  rw [flattenPS, List.length_flatten, Script.total_sentences, List.map_map]
  congr 1
  exact List.map_congr_left (fun p _ => by simp)

/-- C6: a synthesis call whose underlying generator returns an empty sample
array is turned into an explicit failure by the adapter (`synthesize` raises
on zero samples), so the pipeline gives that sentence the 1.0-second silence
substitution instead of processing it as a success of duration 0. -/
theorem empty_samples_treated_as_failure
    (convert : List Char → List Char) (gen : List Char → Audio × ℕ)
    (script : Script) (pause_sec : ℚ) (engine_sr : ℕ) (k : ℕ) (ps : ℕ × Sentence)
    (hk : (flattenPS script)[k]? = some ps)
    (hempty : (gen (engine_processed convert ps.2.text.toList)).1 = []) :
    synthesize convert gen ps.2.text.toList = none ∧
      (phase1_seq script (fun t => synthesize convert gen t.toList))[k]? = some none ∧
      (flat_triples (run_phase2 script
          (phase1_seq script (fun t => synthesize convert gen t.toList))
          pause_sec engine_sr).1)[k]?.map (fun t => t.2.1) = some 1 := by
  have hsyn : synthesize convert gen ps.2.text.toList = none := by
    simp only [synthesize]
    rw [hempty]
    by_cases hs : (pyStrip ps.2.text.toList).isEmpty
    · rw [if_pos hs]
    · rw [if_neg hs]
      rfl
  have h2 : (phase1_seq script (fun t => synthesize convert gen t.toList))[k]? =
      some none := by
    rw [phase1_seq, List.getElem?_map, hk]
    simp only [Option.map_some', hsyn]
  have hkl : k < script.total_sentences := by
    rw [← flattenPS_length]
    exact (List.getElem?_eq_some.mp hk).1
  exact ⟨hsyn, h2,
    run_dur_at_failure script _ pause_sec engine_sr k h2 hkl⟩

/-- Witness for C6 at a one-sentence script with a generator that returns no
samples. -/
theorem empty_samples_treated_as_failure_witness :
    (flattenPS ⟨[⟨1, 0, [⟨"hi", 0, 0, none, 0, 0⟩]⟩]⟩)[0]? =
        some (1, ⟨"hi", 0, 0, none, 0, 0⟩) ∧
      synthesize id (fun _ => (([] : Audio), 48000)) "hi".toList = none :=
  ⟨rfl,
    (empty_samples_treated_as_failure id (fun _ => (([] : Audio), 48000))
      ⟨[⟨1, 0, [⟨"hi", 0, 0, none, 0, 0⟩]⟩]⟩ (1/2) 48000 0
      (1, ⟨"hi", 0, 0, none, 0, 0⟩) rfl rfl).1⟩

/-- Counterexample to C7 as stated: on the trailing text "你好 世界" the
space-split strategy computes an average fragment length of 2, below the
minimum sentence length 4, so the split is rejected and page 1 keeps the
whole text as one sentence — it does not contain the two sentences "你好"
and "世界". -/
theorem parse_concrete_counterexample :
    (parse_script "Page1: 你好 世界\n第2頁：\n今天天氣很好。").pages.map
        (fun p => p.sentences.map (·.text)) ≠ [["你好", "世界"], ["今天天氣很好"]] := by
  decide

/-- C7 (amended): the input parses to exactly 2 pages numbered 1 and 2;
page 1 holds the single sentence "你好 世界" (the space-split strategy rejects
the split because the average fragment length 2 is below the minimum
sentence length 4) and page 2 holds the single sentence "今天天氣很好" with
the trailing full stop consumed as a terminator. -/
theorem parse_concrete_amended :
    (parse_script "Page1: 你好 世界\n第2頁：\n今天天氣很好。").pages.map
        (fun p => (p.page_number, p.sentences.map (·.text))) =
      [(1, ["你好 世界"]), (2, ["今天天氣很好"])] := by
  decide

/-- Python float `%` with a positive divisor lands in `[0, b)`. -/
theorem pyMod_nonneg_lt (a b : ℚ) (hb : 0 < b) : 0 ≤ pyMod a b ∧ pyMod a b < b := by
  unfold pyMod
  constructor
  · have h := Int.floor_le (a / b)
    have h2 : (⌊a / b⌋ : ℚ) * b ≤ a := (le_div_iff₀ hb).mp h
    linarith
  · have h := Int.lt_floor_add_one (a / b)
    have h2 : a < ((⌊a / b⌋ : ℚ) + 1) * b := (div_lt_iff₀ hb).mp h
    linarith

/-- The millisecond field is clamped below 1000. -/
theorem srt_millis_le (q : ℚ) : srt_millis q ≤ 999 := by
  simp only [srt_millis]
  split_ifs with h
  · exact le_refl 999
  · exact Int.toNat_le.mpr (by omega)

/-- The cue loop emits exactly the positive-duration sentences in order,
numbered consecutively from the running index, with each end time
`start_sec + duration_sec`. -/
theorem srt_cues_spec : ∀ (n : ℕ) (l : List Sentence),
    srt_cues n l =
      ((l.filter (fun s => decide (0 < s.duration_sec))).enumFrom n).map
        (fun is => (is.1, is.2.start_sec, is.2.start_sec + is.2.duration_sec, is.2.text))
  | n, [] => by simp [srt_cues]
  | n, s :: rest => by
    rw [srt_cues]
    by_cases h : s.duration_sec ≤ 0
    · rw [if_pos h, srt_cues_spec n rest]
      have hd : (decide (0 < s.duration_sec)) = false := decide_eq_false (not_lt.mpr h)
      simp [List.filter_cons, hd]
    · rw [if_neg h, srt_cues_spec (n + 1) rest]
      have hd : (decide (0 < s.duration_sec)) = true := decide_eq_true (not_le.mp h)
      simp [List.filter_cons, hd, List.enumFrom]

/-- C9: subtitle derivation emits one cue per sentence with positive
duration, in canonical order, numbered contiguously from 1 (skipped
sentences consume no number), with end time `start_sec + duration_sec`;
times are formatted as HH:MM:SS,mmm with minutes and seconds below 60, the
millisecond field clamped to `[0, 999]`, and negative inputs clamped to 0. -/
theorem srt_cue_structure (script : Script) :
    srt_cues 1 ((script.pages.map (·.sentences)).flatten) =
        (((((script.pages.map (·.sentences)).flatten).filter
            (fun s => decide (0 < s.duration_sec))).enumFrom 1).map
          (fun is => (is.1, is.2.start_sec, is.2.start_sec + is.2.duration_sec,
            is.2.text))) ∧
      (∀ q : ℚ, q < 0 → format_srt_time q = format_srt_time 0) ∧
      (∀ q : ℚ, srt_millis q ≤ 999) ∧
      (∀ q : ℚ, ∃ h m s ms, m ≤ 59 ∧ s ≤ 59 ∧ ms ≤ 999 ∧
        format_srt_time q =
          pad2 h ++ ":" ++ pad2 m ++ ":" ++ pad2 s ++ "," ++ pad3 ms) := by
  refine ⟨srt_cues_spec 1 _, ?_, srt_millis_le, ?_⟩
  · intro q hq
    simp [format_srt_time, hq, lt_irrefl]
  · intro q
    refine ⟨(⌊(if q < 0 then 0 else q) / 3600⌋).toNat,
      (⌊pyMod (if q < 0 then 0 else q) 3600 / 60⌋).toNat,
      (⌊pyMod (if q < 0 then 0 else q) 60⌋).toNat,
      srt_millis (if q < 0 then 0 else q), ?_, ?_, srt_millis_le _, rfl⟩
    · obtain ⟨hm0, hm1⟩ := pyMod_nonneg_lt (if q < 0 then 0 else q) 3600 (by norm_num)
      have hlt : ⌊pyMod (if q < 0 then 0 else q) 3600 / 60⌋ < 60 := by
        rw [Int.floor_lt, div_lt_iff₀ (by norm_num : (0:ℚ) < 60)]
        push_cast
        linarith
      exact Int.toNat_le.mpr (by omega)
    · obtain ⟨hs0, hs1⟩ := pyMod_nonneg_lt (if q < 0 then 0 else q) 60 (by norm_num)
      have hlt : ⌊pyMod (if q < 0 then 0 else q) 60⌋ < 60 := by
        rw [Int.floor_lt]
        push_cast
        linarith
      exact Int.toNat_le.mpr (by omega)

/-- Witness for C9: a negative time is formatted as time zero. -/
theorem srt_cue_structure_witness : format_srt_time (-1) = format_srt_time 0 :=
  (srt_cue_structure ⟨[]⟩).2.1 (-1) (by norm_num)

/-! ## Parser fold lemmas for C8 -/

/-- Blank lines leave the parser state unchanged. -/
theorem parse_line_blank (st : ParseState) (l : List Char)
    (h : (pyStrip l).isEmpty = true) : parse_line st l = st := by
  simp only [parse_line]
  rw [if_pos h]

/-- A run of blank lines leaves the parser state unchanged. -/
theorem foldl_blank : ∀ (blanks : List (List Char)) (st : ParseState),
    (∀ b ∈ blanks, (pyStrip b).isEmpty = true) →
    blanks.foldl parse_line st = st
  | [], _, _ => rfl
  | b :: rest, st, h => by
    rw [List.foldl_cons, parse_line_blank st b (h b (List.mem_cons_self b rest))]
    exact foldl_blank rest st (fun x hx => h x (List.mem_cons_of_mem b hx))

/-- Enumeration distributes over append, shifting the start index. -/
theorem enumFrom_append' : ∀ (A B : List (List Char)) (n : ℕ),
    (A ++ B).enumFrom n = A.enumFrom n ++ B.enumFrom (n + A.length)
  | [], B, n => by simp
  | a :: A, B, n => by
    simp only [List.cons_append, List.enumFrom_cons, enumFrom_append' A B (n + 1),
      List.length_cons]
    rw [show n + 1 + A.length = n + (A.length + 1) from by omega]

/-- Numbered sentence lists concatenate when the second starts where the
first ends. -/
theorem mkSentences_append (pi n : ℕ) (A B : List (List Char)) :
    mkSentences pi n A ++ mkSentences pi (n + A.length) B = mkSentences pi n (A ++ B) := by
  rw [mkSentences, mkSentences, mkSentences, enumFrom_append', List.map_append]

/-- Numbered sentence lists concatenate, starting from index 0. -/
theorem mkSentences_append0 (pi : ℕ) (A B : List (List Char)) :
    mkSentences pi 0 A ++ mkSentences pi A.length B = mkSentences pi 0 (A ++ B) := by
  have h := mkSentences_append pi 0 A B
  rwa [Nat.zero_add] at h

/-- Length of a numbered sentence list. -/
theorem mkSentences_length (pi n : ℕ) (texts : List (List Char)) :
    (mkSentences pi n texts).length = texts.length := by
  rw [mkSentences, List.length_map, List.enumFrom_length]

/-- Texts of a numbered sentence list. -/
theorem mkSentences_texts (pi n : ℕ) (texts : List (List Char)) :
    (mkSentences pi n texts).map (·.text) = texts.map List.asString := by
  rw [mkSentences, List.map_map]
  have h := List.enumFrom_map_snd n texts
  calc (texts.enumFrom n).map ((fun s => s.text) ∘ fun it =>
        { text := it.2.asString, page_index := pi, sentence_index := it.1 : Sentence })
      = (texts.enumFrom n).map (List.asString ∘ Prod.snd) := rfl
    _ = ((texts.enumFrom n).map Prod.snd).map List.asString := by
        rw [List.map_map]
    _ = texts.map List.asString := by rw [h]

/-- The first non-blank, non-header line creates the implicit page 1. -/
theorem parse_line_first (l : List Char)
    (hne : (pyStrip l).isEmpty = false)
    (hnh : match_page_header (pyStrip l) = none) :
    parse_line ⟨[], none, 0⟩ l =
      ⟨[], some ⟨1, 0, mkSentences 0 0 (split_into_sentences (pyStrip l))⟩, 1⟩ := by
  simp only [parse_line]
  rw [if_neg (by rw [hne]; exact Bool.false_ne_true), hnh]

/-- Folding header-free lines onto the implicit page appends the numbered
sentences of every non-blank line. -/
theorem foldl_noheader : ∀ (lines : List (List Char)) (acc : List (List Char)),
    (∀ l ∈ lines, match_page_header (pyStrip l) = none) →
    lines.foldl parse_line ⟨[], some ⟨1, 0, mkSentences 0 0 acc⟩, 1⟩ =
      ⟨[], some ⟨1, 0, mkSentences 0 0
        (acc ++ (((lines.map pyStrip).filter (fun x => !x.isEmpty)).map
          split_into_sentences).flatten)⟩, 1⟩
  | [], acc, _ => by simp
  | l :: rest, acc, h => by
    rw [List.foldl_cons]
    by_cases hb : (pyStrip l).isEmpty
    · rw [parse_line_blank _ l hb,
        foldl_noheader rest acc (fun x hx => h x (List.mem_cons_of_mem l hx))]
      simp [List.filter_cons, hb]
    · have hstep : parse_line ⟨[], some ⟨1, 0, mkSentences 0 0 acc⟩, 1⟩ l =
          ⟨[], some ⟨1, 0, mkSentences 0 0 (acc ++ split_into_sentences (pyStrip l))⟩,
            1⟩ := by
        have hnh := h l (List.mem_cons_self l rest)
        simp only [parse_line, hb, if_false, hnh]
        rw [if_neg Bool.false_ne_true]
        rw [show (mkSentences 0 0 acc).length = acc.length from
          mkSentences_length 0 0 acc]
        rw [mkSentences_append0]
      rw [hstep,
        foldl_noheader rest (acc ++ split_into_sentences (pyStrip l))
          (fun x hx => h x (List.mem_cons_of_mem l hx))]
      have hfil : ((((l :: rest).map pyStrip).filter (fun x => !x.isEmpty)).map
            split_into_sentences).flatten =
          split_into_sentences (pyStrip l) ++
            (((rest.map pyStrip).filter (fun x => !x.isEmpty)).map
              split_into_sentences).flatten := by
        simp [List.filter_cons, hb]
      rw [hfil, ← List.append_assoc]

/-- Folding header-free lines from the initial state yields at most the
implicit page 1 holding all content. -/
theorem foldl_noheader_init : ∀ (lines : List (List Char)),
    (∀ l ∈ lines, match_page_header (pyStrip l) = none) →
    lines.foldl parse_line ⟨[], none, 0⟩ =
      (if (((lines.map pyStrip).filter (fun x => !x.isEmpty))).isEmpty then
        (⟨[], none, 0⟩ : ParseState)
      else ⟨[], some ⟨1, 0, mkSentences 0 0
        ((((lines.map pyStrip).filter (fun x => !x.isEmpty)).map
          split_into_sentences).flatten)⟩, 1⟩)
  | [], _ => by simp
  | l :: rest, h => by
    rw [List.foldl_cons]
    by_cases hb : (pyStrip l).isEmpty
    · rw [parse_line_blank _ l hb,
        foldl_noheader_init rest (fun x hx => h x (List.mem_cons_of_mem l hx))]
      simp [List.filter_cons, hb]
    · have hne : (pyStrip l).isEmpty = false := Bool.eq_false_iff.mpr hb
      rw [parse_line_first l hne (h l (List.mem_cons_self l rest))]
      have hrest := foldl_noheader rest (split_into_sentences (pyStrip l))
        (fun x hx => h x (List.mem_cons_of_mem l hx))
      rw [hrest]
      have hfil : (((l :: rest).map pyStrip).filter (fun x => !x.isEmpty)) =
          pyStrip l :: ((rest.map pyStrip).filter (fun x => !x.isEmpty)) := by
        simp [List.filter_cons, hb]
      rw [hfil]
      simp

/-- The page holding the leading content: page number 1, structural index 0,
and the leading sentences as a prefix of its sentence texts. -/
def PageOK (Pfx : List String) (p : Page) : Prop :=
  p.page_number = 1 ∧ p.page_index = 0 ∧ ∃ suf, p.sentences.map (·.text) = Pfx ++ suf

/-- Parser-state invariant: a current page exists and the first page of the
final output (the last completed page, or the current page when none is
completed) satisfies `PageOK`. -/
def InvState (Pfx : List String) (st : ParseState) : Prop :=
  ∃ c, st.current = some c ∧
    ((st.finished = [] ∧ PageOK Pfx c) ∨
      (st.finished ≠ [] ∧ ∀ p ∈ st.finished.getLast?, PageOK Pfx p))

/-- Unfolding of `parse_line` on a header line. -/
theorem parse_line_header (st : ParseState) (l : List Char) (num : ℕ)
    (remaining : List Char)
    (hb : ¬(pyStrip l).isEmpty = true)
    (hh : match_page_header (pyStrip l) = some (num, remaining)) :
    parse_line st l =
      ⟨(match st.current with
        | none => st.finished
        | some p => p :: st.finished),
        some ⟨num, st.pageIndex,
          if remaining.isEmpty then []
          else mkSentences st.pageIndex 0 (split_into_sentences remaining)⟩,
        st.pageIndex + 1⟩ := by
  simp only [parse_line, hb, hh]
  rw [if_neg Bool.false_ne_true]

/-- Unfolding of `parse_line` on a content line when a current page exists. -/
theorem parse_line_content (st : ParseState) (c : Page) (l : List Char)
    (hb : ¬(pyStrip l).isEmpty = true)
    (hh : match_page_header (pyStrip l) = none)
    (hc : st.current = some c) :
    parse_line st l =
      ⟨st.finished,
        some ⟨c.page_number, c.page_index,
          c.sentences ++ mkSentences c.page_index c.sentences.length
            (split_into_sentences (pyStrip l))⟩,
        st.pageIndex⟩ := by
  simp only [parse_line, hb, hh, hc]
  rw [if_neg Bool.false_ne_true]

/-- One parser step preserves the leading-content invariant. -/
theorem parse_line_inv (Pfx : List String) (st : ParseState) (l : List Char)
    (hinv : InvState Pfx st) : InvState Pfx (parse_line st l) := by
  obtain ⟨c, hc, hrest⟩ := hinv
  by_cases hb : (pyStrip l).isEmpty
  · rw [parse_line_blank st l hb]
    exact ⟨c, hc, hrest⟩
  · cases hh : match_page_header (pyStrip l) with
    | some nr =>
      obtain ⟨num, remaining⟩ := nr
      rw [parse_line_header st l num remaining hb hh, hc]
      refine ⟨_, rfl, Or.inr ⟨by simp, ?_⟩⟩
      intro p hp
      cases hfin : st.finished with
      | nil =>
        rw [hfin] at hp
        simp only [List.getLast?_singleton, Option.mem_def, Option.some.injEq] at hp
        subst hp
        rcases hrest with ⟨_, hok⟩ | ⟨hne, _⟩
        · exact hok
        · exact absurd hfin hne
      | cons f fs =>
        rw [hfin] at hp
        rw [List.getLast?_cons_cons] at hp
        rcases hrest with ⟨hemp, _⟩ | ⟨_, hok⟩
        · rw [hfin] at hemp
          cases hemp
        · exact hok p (by rw [hfin]; exact hp)
    | none =>
      rw [parse_line_content st c l hb hh hc]
      rcases hrest with ⟨hemp, hok⟩ | ⟨hne, hok⟩
      · refine ⟨_, rfl, Or.inl ⟨hemp, hok.1, hok.2.1, ?_⟩⟩
        obtain ⟨suf, hsuf⟩ := hok.2.2
        refine ⟨suf ++ (mkSentences c.page_index c.sentences.length
            (split_into_sentences (pyStrip l))).map (·.text), ?_⟩
        simp only [List.map_append]
        rw [hsuf, List.append_assoc]
      · exact ⟨_, rfl, Or.inr ⟨hne, hok⟩⟩

/-- Folding any lines preserves the leading-content invariant. -/
theorem foldl_inv (Pfx : List String) : ∀ (lines : List (List Char)) (st : ParseState),
    InvState Pfx st → InvState Pfx (lines.foldl parse_line st)
  | [], _, h => h
  | l :: rest, st, h =>
    foldl_inv Pfx rest (parse_line st l) (parse_line_inv Pfx st l h)

/-- The final output of an invariant-holding state starts with the page
holding the leading content. -/
theorem pagesOut_head (Pfx : List String) (st : ParseState)
    (hinv : InvState Pfx st) :
    ∃ p tail, st.pagesOut = p :: tail ∧ PageOK Pfx p := by
  obtain ⟨c, hc, hrest⟩ := hinv
  rw [ParseState.pagesOut, hc]
  cases hfin : st.finished with
  | nil =>
    rcases hrest with ⟨_, hok⟩ | ⟨hne, _⟩
    · exact ⟨c, [], by simp, hok⟩
    · exact absurd hfin hne
  | cons f fs =>
    rcases hrest with ⟨hemp, _⟩ | ⟨_, hok⟩
    · rw [hfin] at hemp
      cases hemp
    · have hne : (f :: fs) ≠ [] := by simp
      obtain ⟨p, hp⟩ := Option.isSome_iff_exists.mp
        (List.getLast?_isSome.mpr hne)
      have hokp : PageOK Pfx p := hok p (by rw [hfin]; exact hp)
      cases hrev : (f :: fs).reverse with
      | nil => exact absurd (List.reverse_eq_nil_iff.mp hrev) hne
      | cons q t =>
        have hq : q = p := by
          have h1 : (f :: fs).reverse.head? = some q := by rw [hrev]; rfl
          rw [List.head?_reverse, hp] at h1
          exact (Option.some.injEq _ _ ▸ h1).symm
        refine ⟨p, t ++ [c], ?_, hokp⟩
        rw [List.reverse_cons, hrev, hq]
        rfl

/-- C8: the parser is total by construction (the embedding is a total Lean
function), and it never discards leading content.  First part: when no line
of the input matches a page header, the whole input collapses into at most
one implicit page numbered 1 holding every non-blank line's sentences in
order.  Second part: for any header-free leading segment of the input with
at least one non-blank line, whatever follows it (in particular page
headers and further pages), the first page of the parse is the implicit
page 1 and the sentences of every non-blank line of that segment, in order,
open its sentence list — no content line appearing before any page header
is ever discarded. -/
theorem parse_total_and_keeps_leading_content (text : String) :
    ((∀ l ∈ splitOnPred (· == '\n') (stripBOM text.toList),
        match_page_header (pyStrip l) = none) →
      (parse_script text).pages =
        (if ((((splitOnPred (· == '\n') (stripBOM text.toList)).map pyStrip).filter
            (fun x => !x.isEmpty))).isEmpty then []
        else [⟨1, 0, mkSentences 0 0
          (((((splitOnPred (· == '\n') (stripBOM text.toList)).map pyStrip).filter
            (fun x => !x.isEmpty)).map split_into_sentences).flatten)⟩])) ∧
    (∀ (pre rest : List (List Char)),
      splitOnPred (· == '\n') (stripBOM text.toList) = pre ++ rest →
      (∀ l ∈ pre, match_page_header (pyStrip l) = none) →
      ((pre.map pyStrip).filter (fun x => !x.isEmpty)).isEmpty = false →
      ∃ p tail suf, (parse_script text).pages = p :: tail ∧ p.page_number = 1 ∧
        p.page_index = 0 ∧ p.sentences.map (·.text) =
          ((((pre.map pyStrip).filter (fun x => !x.isEmpty)).map
            split_into_sentences).flatten).map List.asString ++ suf) := by
  have hps : (parse_script text).pages =
      ((splitOnPred (· == '\n') (stripBOM text.toList)).foldl parse_line
        ⟨[], none, 0⟩).pagesOut := rfl
  constructor
  · intro hno
    rw [hps, foldl_noheader_init _ hno]
    split_ifs with hemp <;> rfl
  · intro pre rest hdec hnh hcon
    rw [hps, hdec, List.foldl_append, foldl_noheader_init pre hnh,
      if_neg (by rw [hcon]; exact Bool.false_ne_true)]
    have hinv0 : InvState
        (((((pre.map pyStrip).filter (fun x => !x.isEmpty)).map
          split_into_sentences).flatten).map List.asString)
        ⟨[], some ⟨1, 0, mkSentences 0 0
          ((((pre.map pyStrip).filter (fun x => !x.isEmpty)).map
            split_into_sentences).flatten)⟩, 1⟩ :=
      ⟨_, rfl, Or.inl ⟨rfl, rfl, rfl,
        ⟨[], by rw [mkSentences_texts, List.append_nil]⟩⟩⟩
    obtain ⟨p, tail, hpt, hok⟩ := pagesOut_head _ _ (foldl_inv _ rest _ hinv0)
    obtain ⟨suf, hsuf⟩ := hok.2.2
    exact ⟨p, tail, suf, hpt, hok.1, hok.2.1, hsuf⟩

/-- Witness for C8: first, a header-free two-fragment input yields one
implicit page 1 holding both sentences; second, an input with two leading
content lines followed by a page header keeps the sentences of both leading
lines, in order, at the front of page 1. -/
theorem parse_total_witness :
    ((parse_script "abcd efgh").pages.map
        (fun p => (p.page_number, p.page_index, p.sentences.map (·.text))) =
      [(1, 0, ["abcd", "efgh"])]) ∧
    (∃ p tail suf,
      (parse_script "abcd efgh\nijkl\nPage2: mnop").pages = p :: tail ∧
        p.page_number = 1 ∧ p.page_index = 0 ∧
        p.sentences.map (·.text) = ["abcd", "efgh", "ijkl"] ++ suf) := by
  constructor
  · have h := (parse_total_and_keeps_leading_content "abcd efgh").1 (by decide)
    rw [h]
    decide
  · obtain ⟨p, tail, suf, hpt, h1, h2, h3⟩ :=
      (parse_total_and_keeps_leading_content "abcd efgh\nijkl\nPage2: mnop").2
        ["abcd efgh".toList, "ijkl".toList] ["Page2: mnop".toList]
        (by decide) (by decide) (by decide)
    refine ⟨p, tail, suf, hpt, h1, h2, ?_⟩
    rw [h3]
    congr 1

end SlideNarrator
